import Mathlib

/-!
# Alpenhorn PKG: identity codec and commit/reveal round state

A shallow embedding of `pkg/server.go`.  Go byte slices and strings are lists
of byte values (`Nat`, each below 256 for a real input), Go maps are
association lists whose keys are pairwise distinct, and the handlers are
functions from the server state and a request to the new state and the
response.
-/

namespace Alpenhorn

/-- A Go `[]byte` or `string`: the sequence of its bytes. -/
abbrev Bytes := List Nat

/-! ## Identity codec -/

/-- `bytes.IndexByte` / `strings.Index` with a one-byte needle: the index of
the first `c` in `s`, or `-1`. -/
def IndexByte : Bytes → Nat → Int
  | [], _ => -1
  | b :: bs, c =>
    if b = c then 0
    else if IndexByte bs c = -1 then -1 else IndexByte bs c + 1

/-- The ASCII fast path of Go's `strings.ToLower`: a string whose bytes are all
below `utf8.RuneSelf` has each of `A..Z` moved to `a..z`; any other string goes
through `strings.Map(unicode.ToLower, s)`, which is the argument `mapLower`. -/
def ToLower (mapLower : Bytes → Bytes) (s : Bytes) : Bytes :=
  if s.all (fun c => decide (c < 0x80)) then
    s.map (fun c => if 65 ≤ c ∧ c ≤ 90 then c + 32 else c)
  else mapLower s

/-- The four errors of `ValidateUsername`, in the order of its checks. -/
inductive UsernameError
  | tooShort
  | tooLong
  | notEmail
  | notLowercase
  deriving DecidableEq, Repr

/-- `ValidateUsername`: `none` is Go's `nil` error. -/
def ValidateUsername (mapLower : Bytes → Bytes) (username : Bytes) : Option UsernameError :=
  if username.length < 3 then some .tooShort
  else if username.length > 64 then some .tooLong
  else if IndexByte username 64 = -1 then some .notEmail
  else if username ≠ ToLower mapLower username then some .notLowercase
  else none

/-- `ValidUsernameToIdentity`: a zeroed `[64]byte` with the username copied
over its front (`copy` stops at the shorter of the two). -/
def ValidUsernameToIdentity (username : Bytes) : Bytes :=
  username.take 64 ++ List.replicate (64 - (username.take 64).length) 0

/-- `UsernameToIdentity`: validation, then the conversion. -/
def UsernameToIdentity (mapLower : Bytes → Bytes) (username : Bytes) :
    Except UsernameError Bytes :=
  match ValidateUsername mapLower username with
  | some err => .error err
  | none => .ok (ValidUsernameToIdentity username)

/-- `IdentityToUsername`: the bytes before the first zero byte, all of them
when there is none. -/
def IdentityToUsername (identity : Bytes) : Bytes :=
  if IndexByte identity 0 = -1 then identity
  else identity.take (IndexByte identity 0).toNat

/-! ## Go maps, hex strings and sorting -/

/-- A Go map read at a key: the value of the first entry with that key. -/
def mapGet {κ ν : Type} [DecidableEq κ] : List (κ × ν) → κ → Option ν
  | [], _ => none
  | (k, v) :: m, x => if k = x then some v else mapGet m x

/-- The keys of a Go map, in the order a `range` loop meets them. -/
def mapKeys {κ ν : Type} (m : List (κ × ν)) : List κ := m.map Prod.fst

/-- The table `"0123456789abcdef"` of `encoding/hex`. -/
def hextable : Bytes := [48, 49, 50, 51, 52, 53, 54, 55, 56, 57, 97, 98, 99, 100, 101, 102]

/-- `hex.EncodeToString`: two digits for every byte, `hextable[v>>4]` and
`hextable[v&0x0f]`. -/
def EncodeToString : Bytes → Bytes
  | [] => []
  | v :: rest => hextable.getD (v / 16) 0 :: hextable.getD (v % 16) 0 :: EncodeToString rest

/-- `hex.EncodedLen`. -/
def EncodedLen (n : Nat) : Nat := n * 2

/-- `ed25519.PublicKeySize`. -/
def PublicKeySize : Nat := 32

/-- Go's `<=` on strings: lexicographic on the bytes. -/
def strLe : Bytes → Bytes → Bool
  | [], _ => true
  | _ :: _, [] => false
  | a :: as, b :: bs => decide (a < b) || (decide (a = b) && strLe as bs)

/-- `sort.Strings`: the increasing arrangement of the strings (which sorting
algorithm produces it cannot be seen in the result). -/
def sortStrings (l : List Bytes) : List Bytes :=
  l.insertionSort (fun a b => strLe a b = true)

/-! ## Server state, requests and responses -/

/-- The primitives of the packages `crypto/sha512` and `ed25519`: the hash
`sha512.Sum512_256` with its 32-byte result, `ed25519.Sign(privateKey, message)`
and `ed25519.Verify(publicKey, message, sig)`, each as the function of its
arguments that it computes on keys of the right size. -/
structure Prims where
  sum512_256 : Bytes → Bytes
  sum512_256_size : ∀ m, (sum512_256 m).length = 32
  sign : Bytes → Bytes → Bytes
  verify : Bytes → Bytes → Bytes → Bool

/-- The state of one round.  A key stands for its `MarshalBinary` encoding;
`revealSignature = none` is the `nil` slice. -/
structure roundState where
  masterPublicKey : Bytes
  masterPrivateKey : Bytes
  blsPublicKey : Bytes
  blsPrivateKey : Bytes
  revealSignature : Option Bytes
  deriving DecidableEq, Repr

/-- The fields of `Server` that the coordinator handlers read or write. -/
structure Server where
  rounds : List (Nat × roundState)
  privateKey : Bytes
  publicKey : Bytes
  coordinatorKey : Bytes
  registrarKey : Bytes
  deriving DecidableEq, Repr

/-- The error codes the coordinator handlers answer with. -/
inductive ErrorCode
  | ErrUnauthorized
  | ErrBadRequestJSON
  | ErrRoundNotFound
  | ErrBadCommitment
  deriving DecidableEq, Repr

/-- Modelled from the spec: the certificate type and `edtls.GetSigningKey` are
not among the sources; a peer certificate carries the signing key that
`GetSigningKey` extracts from its subject public key field. -/
structure Certificate where
  signingKey : Bytes
  deriving DecidableEq, Repr

/-- Modelled from the spec: `edtls.GetSigningKey`, the key of a certificate. -/
def GetSigningKey (cert : Certificate) : Bytes := cert.signingKey

/-- An HTTP request as a handler sees it: the peer certificates of the TLS
connection and the result of decoding the JSON body (`none` when `Decode`
returns an error). -/
structure Request (α : Type) where
  peerCertificates : List Certificate
  body : Option α

/-- The JSON body of a commit request. -/
structure commitArgs where
  Round : Nat
  deriving DecidableEq, Repr

/-- The JSON body of the answer to a commit. -/
structure commitReply where
  Commitment : Bytes
  deriving DecidableEq, Repr

/-- The JSON body of a reveal request; `Commitments` maps
`hex(signingPublicKey)` to a commitment. -/
structure revealArgs where
  Round : Nat
  Commitments : List (Bytes × Bytes)
  deriving DecidableEq, Repr

/-- The JSON body of the answer to a reveal; `Signature` signs the commitments
of the request. -/
structure RevealReply where
  MasterPublicKey : Bytes
  BLSPublicKey : Bytes
  Signature : Bytes
  deriving DecidableEq, Repr

/-- What a handler leaves on the wire: an `httpError`, the JSON of a reply, or
nothing because the handler panicked. -/
inductive Response
  | httpError (code : ErrorCode)
  | commit (reply : commitReply)
  | reveal (reply : RevealReply)
  | panicked
  deriving DecidableEq, Repr

/-- What the random source yields when `commitHandler` asks it: the key pair of
`ibe.Setup` and the key pair of `bls.GenerateKey`, or `none` for its error. -/
structure KeyGen where
  ibePub : Bytes
  ibePriv : Bytes
  bls : Option (Bytes × Bytes)
  deriving DecidableEq, Repr

/-- `Server.authorized`: `ok` for `true`; otherwise the code of the error it
writes. -/
def authorized {α : Type} (key : Bytes) (req : Request α) : Except ErrorCode Unit :=
  match req.peerCertificates with
  | [] => .error .ErrUnauthorized
  | cert :: _ =>
    if GetSigningKey cert ≠ key then .error .ErrUnauthorized
    else .ok ()

/-- `round-1` on `uint32`. -/
def roundMinusOne (round : Nat) : Nat := (round + 2 ^ 32 - 1) % 2 ^ 32

/-- `commitTo`: SHA-512/256 of the two encodings, one after the other. -/
def commitTo (P : Prims) (ibeKey blsKey : Bytes) : Bytes :=
  P.sum512_256 (ibeKey ++ blsKey)

/-- The loop of `commitHandler` that deletes every round `r < round-1`. -/
def evictRounds (rounds : List (Nat × roundState)) (round : Nat) : List (Nat × roundState) :=
  rounds.filter (fun p => ¬ p.1 < roundMinusOne round)

/-- `Server.commitHandler`, run without interleaving. -/
def commitHandler (P : Prims) (gen : KeyGen) (srv : Server) (req : Request commitArgs) :
    Server × Response :=
  match authorized srv.coordinatorKey req with
  | .error code => (srv, .httpError code)
  | .ok _ =>
    match req.body with
    | none => (srv, .httpError .ErrBadRequestJSON)
    | some args =>
      let round := args.Round
      match mapGet srv.rounds round with
      | some st =>
        ({ srv with rounds := evictRounds srv.rounds round },
          .commit ⟨commitTo P st.masterPublicKey st.blsPublicKey⟩)
      | none =>
        match gen.bls with
        | none => (srv, .panicked)
        | some (blsPub, blsPriv) =>
          let st : roundState :=
            { masterPublicKey := gen.ibePub, masterPrivateKey := gen.ibePriv,
              blsPublicKey := blsPub, blsPrivateKey := blsPriv, revealSignature := none }
          match mapGet srv.rounds round with
          | none =>
            ({ srv with rounds := evictRounds (srv.rounds ++ [(round, st)]) round },
              .commit ⟨commitTo P st.masterPublicKey st.blsPublicKey⟩)
          | some cst =>
            ({ srv with rounds := evictRounds srv.rounds round },
              .commit ⟨commitTo P cst.masterPublicKey cst.blsPublicKey⟩)

/-- The bytes of `"Commitments"`. -/
def commitmentsTag : Bytes := [67, 111, 109, 109, 105, 116, 109, 101, 110, 116, 115]

/-- `binary.Write(buf, binary.BigEndian, round)` for a `uint32`. -/
def bigEndian32 (round : Nat) : Bytes :=
  [round / 2 ^ 24 % 256, round / 2 ^ 16 % 256, round / 2 ^ 8 % 256, round % 256]

/-- The loop of `revealHandler` over the sorted keys: both length checks, then
the key and its commitment are appended to the buffer. -/
def appendCommitments (commitments : List (Bytes × Bytes)) (expectedLen : Nat) :
    List Bytes → Bytes → Except ErrorCode Bytes
  | [], buf => .ok buf
  | hexkey :: rest, buf =>
    if hexkey.length ≠ EncodedLen PublicKeySize then .error .ErrBadCommitment
    else
      let commitment := (mapGet commitments hexkey).getD []
      if commitment.length ≠ expectedLen then .error .ErrBadCommitment
      else appendCommitments commitments expectedLen rest (buf ++ hexkey ++ commitment)

/-- The message `revealHandler` signs for a commitments map, or the error of
the loop that builds it. -/
def revealMessage (round : Nat) (commitments : List (Bytes × Bytes)) (expectedLen : Nat) :
    Except ErrorCode Bytes :=
  appendCommitments commitments expectedLen (sortStrings (mapKeys commitments))
    (commitmentsTag ++ bigEndian32 round)

/-- The write `st.revealSignature = sig` through the pointer the map holds for
`round`. -/
def latchSignature (rounds : List (Nat × roundState)) (round : Nat) (sig : Bytes) :
    List (Nat × roundState) :=
  rounds.map (fun p => if p.1 = round then (p.1, { p.2 with revealSignature := some sig }) else p)

/-- `Server.revealHandler`. -/
def revealHandler (P : Prims) (srv : Server) (req : Request revealArgs) : Server × Response :=
  match authorized srv.coordinatorKey req with
  | .error code => (srv, .httpError code)
  | .ok _ =>
    match req.body with
    | none => (srv, .httpError .ErrBadRequestJSON)
    | some args =>
      match mapGet srv.rounds args.Round with
      | none => (srv, .httpError .ErrRoundNotFound)
      | some st =>
        match st.revealSignature with
        | some sig => (srv, .reveal ⟨st.masterPublicKey, st.blsPublicKey, sig⟩)
        | none =>
          let commitment := (mapGet args.Commitments (EncodeToString srv.publicKey)).getD []
          let expected := commitTo P st.masterPublicKey st.blsPublicKey
          if commitment ≠ expected then (srv, .httpError .ErrBadCommitment)
          else
            match revealMessage args.Round args.Commitments expected.length with
            | .error code => (srv, .httpError code)
            | .ok buf =>
              let sig := P.sign srv.privateKey buf
              ({ srv with rounds := latchSignature srv.rounds args.Round sig },
                .reveal ⟨st.masterPublicKey, st.blsPublicKey, sig⟩)

/-- `RoundSettings`: a map from hex key to reply. -/
abbrev RoundSettings := List (Bytes × RevealReply)

/-- The first loop of `Verify`: `none` where it returns `false` for a key that
is not in the settings, else the buffer with every key and the commitment
recomputed from its reply. -/
def verifyMessageLoop (P : Prims) (s : RoundSettings) : List Bytes → Bytes → Option Bytes
  | [], buf => some buf
  | hexkey :: rest, buf =>
    match mapGet s hexkey with
    | none => none
    | some reveal =>
      verifyMessageLoop P s rest
        (buf ++ hexkey ++ commitTo P reveal.MasterPublicKey reveal.BLSPublicKey)

/-- The message `Verify` rebuilds from the key list. -/
def verifyMessage (P : Prims) (s : RoundSettings) (round : Nat) (keys : List Bytes) :
    Option Bytes :=
  verifyMessageLoop P s (sortStrings (keys.map EncodeToString)) (commitmentsTag ++ bigEndian32 round)

/-- `RoundSettings.Verify`.  Its second loop calls `ed25519.Verify` key by key
and returns `false` at the first key that fails; `ed25519.Verify` panics on a
public key that is not `PublicKeySize` bytes long, so this Boolean is the
result of the Go function on key lists whose keys all have that size. -/
def Verify (P : Prims) (s : RoundSettings) (round : Nat) (keys : List Bytes) : Bool :=
  match verifyMessage P s round keys with
  | none => false
  | some msg =>
    keys.all (fun key =>
      P.verify key msg (((mapGet s (EncodeToString key)).map (fun r => r.Signature)).getD []))

/-- A PKG serving a sequence of reveal requests, one after the other. -/
def runReveals (P : Prims) (srv : Server) : List (Request revealArgs) → Server
  | [] => srv
  | req :: rest => runReveals P (revealHandler P srv req).1 rest

/-- A request to one of the two coordinator endpoints; a commit comes with what
the random source would yield for it. -/
inductive Call
  | commit (gen : KeyGen) (req : Request commitArgs)
  | reveal (req : Request revealArgs)

/-- The handler `ServeHTTP` dispatches a coordinator request to. -/
def serve (P : Prims) (srv : Server) : Call → Server × Response
  | .commit gen req => commitHandler P gen srv req
  | .reveal req => revealHandler P srv req

/-- A PKG serving a sequence of coordinator requests, one after the other. -/
def run (P : Prims) (srv : Server) : List Call → Server
  | [] => srv
  | call :: rest => run P (serve P srv call).1 rest

/-- Whether the call is a commit, authorized by `key`, for a round `r2` with
`r < r2-1` on `uint32`: the commits whose deletion loop removes round `r`. -/
def evicts (key : Bytes) (r : Nat) : Call → Bool
  | .commit _ req =>
    match authorized key req, req.body with
    | .ok _, some args => decide (r < roundMinusOne args.Round)
    | _, _ => false
  | .reveal _ => false

/-- The map `commitments` of `NewRound` after its commit loop over PKGs that
each hold a round state: `hex(pkg.Key)` to the commitment to the public keys of
that state. -/
def roundCommitments (P : Prims) (pkgs : List (Server × roundState)) : List (Bytes × Bytes) :=
  pkgs.map (fun p => (EncodeToString p.1.publicKey,
    commitTo P p.2.masterPublicKey p.2.blsPublicKey))

/-- The map `settings` of `NewRound` after its reveal loop, when every PKG has
replied with its public keys and its signature of `msg`. -/
def roundSettings (P : Prims) (pkgs : List (Server × roundState)) (msg : Bytes) : RoundSettings :=
  pkgs.map (fun p => (EncodeToString p.1.publicKey,
    (⟨p.2.masterPublicKey, p.2.blsPublicKey, P.sign p.1.privateKey msg⟩ : RevealReply)))

/-- A small instance of the primitives on which the handlers can be evaluated:
the hash keeps the first 32 bytes of the zero-padded input, a signature is the
key followed by the message, and a key accepts the signatures made with
itself. -/
def toyPrims : Prims where
  sum512_256 m := (m ++ List.replicate 32 0).take 32
  sum512_256_size := by intro m; simp
  sign key msg := key ++ msg
  verify key msg sig := decide (sig = key ++ msg)

/-- A PKG for the examples: an empty registry, a 32-byte signing key (under
`toyPrims` the private and the public key are the same bytes) and the
coordinator key `[7]`. -/
def examplePKG : Server :=
  ⟨[], List.replicate 32 1, List.replicate 32 1, [7], [8]⟩

/-- The commit request of the coordinator of `examplePKG` for a round. -/
def exampleCommit (round : Nat) : Request commitArgs := ⟨[⟨[7]⟩], some ⟨round⟩⟩

/-- The reveal request of the coordinator of `examplePKG` for a round and a
commitments map. -/
def exampleReveal (round : Nat) (commitments : List (Bytes × Bytes)) : Request revealArgs :=
  ⟨[⟨[7]⟩], some ⟨round, commitments⟩⟩

/-- One draw of the random source: the one-byte keys `b`, `b+1`, `b+2`, `b+3`. -/
def exampleGen (b : Nat) : KeyGen := ⟨[b], [b + 1], some ([b + 2], [b + 3])⟩

/-- The commitments map the coordinator sends `examplePKG` for the keys of
`exampleGen 10`. -/
def exampleMap : List (Bytes × Bytes) :=
  [(EncodeToString examplePKG.publicKey, commitTo toyPrims [10] [12])]

/-- The reply of `examplePKG` to the reveal of round 5 with `exampleMap`. -/
def exampleReply : RevealReply :=
  ⟨[10], [12], toyPrims.sign examplePKG.privateKey
    (commitmentsTag ++ bigEndian32 5 ++ EncodeToString examplePKG.publicKey ++
      commitTo toyPrims [10] [12])⟩

/-- The round state made of the keys of `exampleGen b`, no signature yet. -/
def exampleState (b : Nat) : roundState := ⟨[b], [b + 1], [b + 2], [b + 3], none⟩

/-- A PKG whose signing key is 32 times the byte `k` and that holds
`exampleState b` for round 5. -/
def examplePeer (k b : Nat) : Server :=
  ⟨[(5, exampleState b)], List.replicate 32 k, List.replicate 32 k, [7], [8]⟩

/-- Two PKGs with the round state each holds for round 5. -/
def examplePKGs : List (Server × roundState) :=
  [(examplePeer 1 10, exampleState 10), (examplePeer 2 20, exampleState 20)]

/-- The attestation message of round 5 for the two PKGs of `examplePKGs`: the
tag, the round, then each hex key with its commitment, the keys in increasing
order. -/
def exampleMessage : Bytes :=
  commitmentsTag ++ bigEndian32 5 ++
    EncodeToString (List.replicate 32 1) ++ commitTo toyPrims [10] [12] ++
    EncodeToString (List.replicate 32 2) ++ commitTo toyPrims [20] [22]

/-! ## Lemmas on the identity codec -/

theorem IndexByte_nonneg_or (s : Bytes) (c : Nat) :
    IndexByte s c = -1 ∨ 0 ≤ IndexByte s c := by
  induction s with
  | nil => left; rfl
  | cons b bs ih =>
    unfold IndexByte
    split
    · right; exact le_refl _
    · split
      · left; rfl
      · right; rcases ih with h | h
        · contradiction
        · omega

theorem IndexByte_eq_neg_one_iff (s : Bytes) (c : Nat) :
    IndexByte s c = -1 ↔ c ∉ s := by
  induction s with
  | nil => simp [IndexByte]
  | cons b bs ih =>
    unfold IndexByte
    by_cases hb : b = c
    · simp [hb]
    · have hcb : ¬ c = b := fun h => hb h.symm
      by_cases hi : IndexByte bs c = -1
      · simp [hb, hi, hcb, ih.mp hi]
      · have hmem : c ∈ bs := by
          by_contra hn
          exact hi (ih.mpr hn)
        rcases IndexByte_nonneg_or bs c with h | h
        · exact absurd h hi
        · simp [hb, hi, hmem]
          omega

theorem IndexByte_append_cons (s t : Bytes) (c : Nat) (h : c ∉ s) :
    IndexByte (s ++ c :: t) c = s.length := by
  induction s with
  | nil => simp [IndexByte]
  | cons b bs ih =>
    have hb : ¬ b = c := fun e => h (by simp [e])
    have hbs : c ∉ bs := fun e => h (by simp [e])
    have hi := ih hbs
    rw [List.cons_append, IndexByte, if_neg hb, hi]
    have hne : ¬ ((bs.length : Int) = -1) := by omega
    rw [if_neg hne, List.length_cons]
    push_cast
    rfl

theorem identity_roundtrip_of_no_zero (u : Bytes) (hlen : u.length ≤ 64) (h0 : 0 ∉ u) :
    IdentityToUsername (ValidUsernameToIdentity u) = u := by
  have htake : u.take 64 = u := List.take_of_length_le hlen
  unfold ValidUsernameToIdentity IdentityToUsername
  rw [htake]
  rcases Nat.eq_zero_or_pos (64 - u.length) with hz | hp
  · rw [hz]
    simp [(IndexByte_eq_neg_one_iff u 0).mpr h0]
  · obtain ⟨k, hk⟩ : ∃ k, 64 - u.length = k + 1 := ⟨64 - u.length - 1, by omega⟩
    rw [hk, List.replicate_succ, IndexByte_append_cons u _ 0 h0]
    have hne : ¬ ((u.length : Int) = -1) := by omega
    simp [hne]

theorem validate_none_iff (mapLower : Bytes → Bytes) (u : Bytes) :
    ValidateUsername mapLower u = none ↔
      3 ≤ u.length ∧ u.length ≤ 64 ∧ IndexByte u 64 ≠ -1 ∧ u = ToLower mapLower u := by
  unfold ValidateUsername
  by_cases h1 : u.length < 3
  · simp [h1]
  · by_cases h2 : u.length > 64
    · simp [h1, h2]
    · by_cases h3 : IndexByte u 64 = -1
      · simp [h1, h2, h3]
      · by_cases h4 : u = ToLower mapLower u
        · simp only [h1, h2, h3, if_false]
          simp [← h4]
          omega
        · simp only [h1, h2, h3, if_false]
          simp [h4]

/-! ## Lemmas on string order and sorting -/

theorem strLe_refl (a : Bytes) : strLe a a = true := by
  induction a with
  | nil => rfl
  | cons x xs ih => simp [strLe, ih]

theorem strLe_total (a b : Bytes) : strLe a b = true ∨ strLe b a = true := by
  induction a generalizing b with
  | nil => left; rfl
  | cons x xs ih =>
    cases b with
    | nil => right; rfl
    | cons y ys =>
      simp only [strLe, Bool.or_eq_true, Bool.and_eq_true, decide_eq_true_eq]
      rcases Nat.lt_trichotomy x y with h | h | h
      · left; left; exact h
      · rcases ih ys with h2 | h2
        · left; right; exact ⟨h, h2⟩
        · right; right; exact ⟨h.symm, h2⟩
      · right; left; exact h

theorem strLe_trans (a b c : Bytes) (hab : strLe a b = true) (hbc : strLe b c = true) :
    strLe a c = true := by
  induction a generalizing b c with
  | nil => rfl
  | cons x xs ih =>
    cases b with
    | nil => simp [strLe] at hab
    | cons y ys =>
      cases c with
      | nil => simp [strLe] at hbc
      | cons z zs =>
        simp only [strLe, Bool.or_eq_true, Bool.and_eq_true, decide_eq_true_eq] at hab hbc ⊢
        rcases hab with h1 | ⟨h1, h1r⟩
        · rcases hbc with h2 | ⟨h2, _⟩
          · left; omega
          · left; omega
        · rcases hbc with h2 | ⟨h2, h2r⟩
          · left; omega
          · right; exact ⟨h1.trans h2, ih ys zs h1r h2r⟩

theorem strLe_antisymm (a b : Bytes) (hab : strLe a b = true) (hba : strLe b a = true) :
    a = b := by
  induction a generalizing b with
  | nil =>
    cases b with
    | nil => rfl
    | cons y ys => simp [strLe] at hba
  | cons x xs ih =>
    cases b with
    | nil => simp [strLe] at hab
    | cons y ys =>
      simp only [strLe, Bool.or_eq_true, Bool.and_eq_true, decide_eq_true_eq] at hab hba
      rcases hab with h1 | ⟨h1, h1r⟩
      · rcases hba with h2 | ⟨h2, _⟩
        · omega
        · omega
      · rcases hba with h2 | ⟨_, h2r⟩
        · omega
        · rw [h1, ih ys h1r h2r]

theorem sortStrings_sorted (l : List Bytes) :
    (sortStrings l).Sorted (fun a b => strLe a b = true) := by
  haveI : IsTotal Bytes (fun a b => strLe a b = true) := ⟨strLe_total⟩
  haveI : IsTrans Bytes (fun a b => strLe a b = true) := ⟨strLe_trans⟩
  exact List.sorted_insertionSort _ l

theorem sortStrings_perm (l : List Bytes) : (sortStrings l).Perm l :=
  List.perm_insertionSort _ l

theorem mem_sortStrings (l : List Bytes) (x : Bytes) : x ∈ sortStrings l ↔ x ∈ l :=
  (sortStrings_perm l).mem_iff

theorem sortStrings_eq_of_perm (l l' : List Bytes) (h : l.Perm l') :
    sortStrings l = sortStrings l' := by
  haveI : IsAntisymm Bytes (fun a b => strLe a b = true) := ⟨strLe_antisymm⟩
  exact List.eq_of_perm_of_sorted
    (((sortStrings_perm l).trans h).trans (sortStrings_perm l').symm)
    (sortStrings_sorted l) (sortStrings_sorted l')

/-! ## Lemmas on maps -/

theorem mapGet_eq_none_iff {κ ν : Type} [DecidableEq κ] (m : List (κ × ν)) (x : κ) :
    mapGet m x = none ↔ x ∉ mapKeys m := by
  induction m with
  | nil => simp [mapGet, mapKeys]
  | cons p m ih =>
    obtain ⟨k, v⟩ := p
    by_cases h : k = x
    · simp [mapGet, mapKeys, h]
    · have hx : ¬ x = k := fun e => h e.symm
      simp only [mapGet, if_neg h, ih, mapKeys, List.map_cons, List.mem_cons, hx, false_or]

theorem mapGet_mem {κ ν : Type} [DecidableEq κ] (m : List (κ × ν)) (x : κ) (v : ν)
    (h : mapGet m x = some v) : (x, v) ∈ m := by
  induction m with
  | nil => simp [mapGet] at h
  | cons p m ih =>
    obtain ⟨k, w⟩ := p
    by_cases hk : k = x
    · simp only [mapGet, if_pos hk, Option.some.injEq] at h
      simp [hk, h]
    · simp only [mapGet, if_neg hk] at h
      exact List.mem_cons_of_mem _ (ih h)

theorem mapGet_of_mem {κ ν : Type} [DecidableEq κ] (m : List (κ × ν)) (x : κ) (v : ν)
    (hnd : (mapKeys m).Nodup) (h : (x, v) ∈ m) : mapGet m x = some v := by
  induction m with
  | nil => simp at h
  | cons p m ih =>
    obtain ⟨k, w⟩ := p
    simp only [mapKeys, List.map_cons, List.nodup_cons] at hnd
    rcases List.mem_cons.mp h with he | ht
    · cases he
      simp [mapGet]
    · have hk : ¬ k = x := by
        intro e
        apply hnd.1
        rw [e]
        exact List.mem_map_of_mem Prod.fst ht
      simp only [mapGet, if_neg hk]
      exact ih hnd.2 ht

theorem mapGet_perm {κ ν : Type} [DecidableEq κ] (m m' : List (κ × ν)) (x : κ)
    (hp : m.Perm m') (hnd : (mapKeys m).Nodup) : mapGet m x = mapGet m' x := by
  have hnd' : (mapKeys m').Nodup := (hp.map Prod.fst).nodup_iff.mp hnd
  cases h : mapGet m x with
  | none =>
    have h1 := (mapGet_eq_none_iff m x).mp h
    have h2 : x ∉ mapKeys m' := fun e => h1 ((hp.map Prod.fst).mem_iff.mpr e)
    exact ((mapGet_eq_none_iff m' x).mpr h2).symm
  | some v =>
    exact (mapGet_of_mem m' x v hnd' (hp.mem_iff.mp (mapGet_mem m x v h))).symm

/-! ## Lemmas on the round registry -/

theorem mapGet_evictRounds (rounds : List (Nat × roundState)) (round k : Nat) :
    mapGet (evictRounds rounds round) k =
      if k < roundMinusOne round then none else mapGet rounds k := by
  induction rounds with
  | nil => simp [evictRounds, mapGet]
  | cons p m ih =>
    obtain ⟨j, st⟩ := p
    unfold evictRounds at ih ⊢
    by_cases hj : j < roundMinusOne round
    · rw [List.filter_cons_of_neg (by simpa using hj), ih]
      by_cases hk : k < roundMinusOne round
      · simp [hk]
      · have hjk : ¬ j = k := fun e => hk (e ▸ hj)
        simp [hk, mapGet, hjk]
    · rw [List.filter_cons_of_pos (by simpa using hj)]
      by_cases hjk : j = k
      · subst hjk
        simp [mapGet, hj]
      · simp only [mapGet, if_neg hjk, ih]

theorem mem_evictRounds (rounds : List (Nat × roundState)) (round : Nat)
    (p : Nat × roundState) (h : p ∈ evictRounds rounds round) :
    p ∈ rounds ∧ ¬ p.1 < roundMinusOne round := by
  unfold evictRounds at h
  have := List.mem_filter.mp h
  exact ⟨this.1, by simpa using this.2⟩

theorem mapGet_append_single {κ ν : Type} [DecidableEq κ] (m : List (κ × ν)) (k x : κ) (v : ν) :
    mapGet (m ++ [(k, v)]) x =
      match mapGet m x with
      | some w => some w
      | none => if k = x then some v else none := by
  induction m with
  | nil => simp [mapGet]
  | cons p m ih =>
    obtain ⟨j, w⟩ := p
    by_cases hj : j = x
    · simp [mapGet, hj]
    · rw [List.cons_append]
      simp only [mapGet, if_neg hj]
      exact ih

theorem mapGet_latchSignature (rounds : List (Nat × roundState)) (round k : Nat) (sig : Bytes) :
    mapGet (latchSignature rounds round sig) k =
      (mapGet rounds k).map
        (fun st => if k = round then { st with revealSignature := some sig } else st) := by
  induction rounds with
  | nil => simp [latchSignature, mapGet]
  | cons p m ih =>
    obtain ⟨j, st⟩ := p
    have hcons : latchSignature ((j, st) :: m) round sig =
        (if j = round then (j, { st with revealSignature := some sig }) else (j, st)) ::
          latchSignature m round sig := rfl
    rw [hcons]
    by_cases hj : j = round
    · rw [if_pos hj]
      by_cases hk : j = k
      · simp only [mapGet, if_pos hk, Option.map_some']
        rw [if_pos (hk ▸ hj)]
      · simp only [mapGet, if_neg hk]
        exact ih
    · rw [if_neg hj]
      by_cases hk : j = k
      · simp only [mapGet, if_pos hk, Option.map_some']
        rw [if_neg (hk ▸ hj)]
      · simp only [mapGet, if_neg hk]
        exact ih

theorem roundMinusOne_of_pos (r : Nat) (h0 : 0 < r) (hr : r < 2 ^ 32) :
    roundMinusOne r = r - 1 := by
  unfold roundMinusOne
  have : r + 2 ^ 32 - 1 = (r - 1) + 2 ^ 32 := by omega
  rw [this, Nat.add_mod_right, Nat.mod_eq_of_lt (by omega)]

/-! ## The handlers, case by case -/

theorem commitHandler_unauthorized (P : Prims) (gen : KeyGen) (srv : Server)
    (req : Request commitArgs) (code : ErrorCode)
    (h : authorized srv.coordinatorKey req = .error code) :
    commitHandler P gen srv req = (srv, .httpError code) := by
  simp [commitHandler, h]

theorem commitHandler_found (P : Prims) (gen : KeyGen) (srv : Server)
    (req : Request commitArgs) (r : Nat) (st : roundState)
    (ha : authorized srv.coordinatorKey req = .ok ()) (hb : req.body = some ⟨r⟩)
    (hst : mapGet srv.rounds r = some st) :
    commitHandler P gen srv req =
      ({ srv with rounds := evictRounds srv.rounds r },
        .commit ⟨commitTo P st.masterPublicKey st.blsPublicKey⟩) := by
  simp [commitHandler, ha, hb, hst]

theorem commitHandler_fresh (P : Prims) (gen : KeyGen) (srv : Server)
    (req : Request commitArgs) (r : Nat) (blsPub blsPriv : Bytes)
    (ha : authorized srv.coordinatorKey req = .ok ()) (hb : req.body = some ⟨r⟩)
    (hst : mapGet srv.rounds r = none) (hg : gen.bls = some (blsPub, blsPriv)) :
    commitHandler P gen srv req =
      ({ srv with rounds := evictRounds (srv.rounds ++
          [(r, { masterPublicKey := gen.ibePub, masterPrivateKey := gen.ibePriv,
                 blsPublicKey := blsPub, blsPrivateKey := blsPriv,
                 revealSignature := none })]) r },
        .commit ⟨commitTo P gen.ibePub blsPub⟩) := by
  simp [commitHandler, ha, hb, hst, hg]

theorem commitHandler_panicked (P : Prims) (gen : KeyGen) (srv : Server)
    (req : Request commitArgs) (r : Nat)
    (ha : authorized srv.coordinatorKey req = .ok ()) (hb : req.body = some ⟨r⟩)
    (hst : mapGet srv.rounds r = none) (hg : gen.bls = none) :
    commitHandler P gen srv req = (srv, .panicked) := by
  simp [commitHandler, ha, hb, hst, hg]

theorem commitHandler_badJSON (P : Prims) (gen : KeyGen) (srv : Server)
    (req : Request commitArgs)
    (ha : authorized srv.coordinatorKey req = .ok ()) (hb : req.body = none) :
    commitHandler P gen srv req = (srv, .httpError .ErrBadRequestJSON) := by
  simp [commitHandler, ha, hb]

theorem revealHandler_unauthorized (P : Prims) (srv : Server)
    (req : Request revealArgs) (code : ErrorCode)
    (h : authorized srv.coordinatorKey req = .error code) :
    revealHandler P srv req = (srv, .httpError code) := by
  simp [revealHandler, h]

theorem revealHandler_badJSON (P : Prims) (srv : Server) (req : Request revealArgs)
    (ha : authorized srv.coordinatorKey req = .ok ()) (hb : req.body = none) :
    revealHandler P srv req = (srv, .httpError .ErrBadRequestJSON) := by
  simp [revealHandler, ha, hb]

theorem revealHandler_notFound (P : Prims) (srv : Server) (req : Request revealArgs)
    (args : revealArgs)
    (ha : authorized srv.coordinatorKey req = .ok ()) (hb : req.body = some args)
    (hst : mapGet srv.rounds args.Round = none) :
    revealHandler P srv req = (srv, .httpError .ErrRoundNotFound) := by
  simp [revealHandler, ha, hb, hst]

theorem revealHandler_latched (P : Prims) (srv : Server) (req : Request revealArgs)
    (args : revealArgs) (st : roundState) (sig : Bytes)
    (ha : authorized srv.coordinatorKey req = .ok ()) (hb : req.body = some args)
    (hst : mapGet srv.rounds args.Round = some st) (hs : st.revealSignature = some sig) :
    revealHandler P srv req =
      (srv, .reveal ⟨st.masterPublicKey, st.blsPublicKey, sig⟩) := by
  simp [revealHandler, ha, hb, hst, hs]

theorem revealHandler_unlatched (P : Prims) (srv : Server) (req : Request revealArgs)
    (args : revealArgs) (st : roundState)
    (ha : authorized srv.coordinatorKey req = .ok ()) (hb : req.body = some args)
    (hst : mapGet srv.rounds args.Round = some st) (hs : st.revealSignature = none) :
    revealHandler P srv req =
      if (mapGet args.Commitments (EncodeToString srv.publicKey)).getD [] ≠
          commitTo P st.masterPublicKey st.blsPublicKey then
        (srv, .httpError .ErrBadCommitment)
      else
        match revealMessage args.Round args.Commitments
            (commitTo P st.masterPublicKey st.blsPublicKey).length with
        | .error code => (srv, .httpError code)
        | .ok buf =>
          ({ srv with rounds := latchSignature srv.rounds args.Round (P.sign srv.privateKey buf) },
            .reveal ⟨st.masterPublicKey, st.blsPublicKey, P.sign srv.privateKey buf⟩) := by
  simp only [revealHandler, ha, hb, hst, hs]

theorem authorized_cases {α : Type} (key : Bytes) (req : Request α) :
    authorized key req = .ok () ∨ authorized key req = .error .ErrUnauthorized := by
  unfold authorized
  split
  · right; rfl
  · split
    · right; rfl
    · left; rfl

/-- Every run of `commitHandler` either leaves the server as it was and
answers no commitment, or is an authorized, decoded commit for a round `r`:
the registry `rounds1` after the insertion holds a state for `r` (the one it
held before, if any), the rounds below `r-1` are then deleted, and the answer
is the commitment to that state. -/
theorem commitHandler_cases (P : Prims) (gen : KeyGen) (srv : Server) (req : Request commitArgs) :
    ((commitHandler P gen srv req).1 = srv ∧ ∀ c, (commitHandler P gen srv req).2 ≠ .commit c) ∨
    ∃ r st rounds1,
      authorized srv.coordinatorKey req = .ok () ∧ req.body = some ⟨r⟩ ∧
      mapGet rounds1 r = some st ∧
      (∀ k, k ≠ r → mapGet rounds1 k = mapGet srv.rounds k) ∧
      (∀ st0, mapGet srv.rounds r = some st0 → st = st0) ∧
      (mapGet srv.rounds r = none → st.revealSignature = none) ∧
      commitHandler P gen srv req =
        ({ srv with rounds := evictRounds rounds1 r },
          .commit ⟨commitTo P st.masterPublicKey st.blsPublicKey⟩) := by
  rcases authorized_cases srv.coordinatorKey req with ha | ha
  swap
  · left
    rw [commitHandler_unauthorized P gen srv req _ ha]
    exact ⟨rfl, fun c h => by cases h⟩
  cases hb : req.body with
  | none =>
    left
    rw [commitHandler_badJSON P gen srv req ha hb]
    exact ⟨rfl, fun c h => by cases h⟩
  | some args =>
    obtain ⟨r⟩ := args
    cases hst : mapGet srv.rounds r with
    | some st =>
      right
      refine ⟨r, st, srv.rounds, ha, rfl, hst, fun _ _ => rfl, ?_, ?_, ?_⟩
      · intro st0 h0
        rw [hst] at h0
        exact (Option.some.inj h0)
      · intro h; rw [hst] at h; cases h
      · exact commitHandler_found P gen srv req r st ha hb hst
    | none =>
      cases hg : gen.bls with
      | none =>
        left
        rw [commitHandler_panicked P gen srv req r ha hb hst hg]
        exact ⟨rfl, fun c h => by cases h⟩
      | some kp =>
        obtain ⟨blsPub, blsPriv⟩ := kp
        right
        refine ⟨r, (⟨gen.ibePub, gen.ibePriv, blsPub, blsPriv, none⟩ : roundState),
          srv.rounds ++ [(r, (⟨gen.ibePub, gen.ibePriv, blsPub, blsPriv, none⟩ : roundState))],
          ha, rfl, ?_, ?_, ?_, ?_,
          commitHandler_fresh P gen srv req r blsPub blsPriv ha hb hst hg⟩
        · rw [mapGet_append_single, hst]
          simp
        · intro k hk
          rw [mapGet_append_single]
          cases mapGet srv.rounds k with
          | none =>
            have hrk : ¬ r = k := fun e => hk e.symm
            simp [hrk]
          | some w => rfl
        · intro st0 h0
          rw [hst] at h0
          cases h0
        · intro _; rfl

/-- Every run of `revealHandler` either leaves the server as it was, or is an
authorized, decoded reveal for a round whose state has no signature yet, and
latches one on it. -/
theorem revealHandler_cases (P : Prims) (srv : Server) (req : Request revealArgs) :
    (revealHandler P srv req).1 = srv ∨
    ∃ args st sig,
      authorized srv.coordinatorKey req = .ok () ∧ req.body = some args ∧
      mapGet srv.rounds args.Round = some st ∧ st.revealSignature = none ∧
      revealHandler P srv req =
        ({ srv with rounds := latchSignature srv.rounds args.Round sig },
          .reveal ⟨st.masterPublicKey, st.blsPublicKey, sig⟩) := by
  rcases authorized_cases srv.coordinatorKey req with ha | ha
  swap
  · left; rw [revealHandler_unauthorized P srv req _ ha]
  cases hb : req.body with
  | none => left; rw [revealHandler_badJSON P srv req ha hb]
  | some args =>
    cases hst : mapGet srv.rounds args.Round with
    | none => left; rw [revealHandler_notFound P srv req args ha hb hst]
    | some st =>
      cases hs : st.revealSignature with
      | some sig => left; rw [revealHandler_latched P srv req args st sig ha hb hst hs]
      | none =>
        rw [revealHandler_unlatched P srv req args st ha hb hst hs]
        split
        · left; rfl
        · split
          · left; rfl
          · right
            exact ⟨args, st, _, ha, rfl, hst, hs, rfl⟩

theorem commitHandler_keys (P : Prims) (gen : KeyGen) (srv : Server) (req : Request commitArgs) :
    (commitHandler P gen srv req).1.coordinatorKey = srv.coordinatorKey ∧
    (commitHandler P gen srv req).1.publicKey = srv.publicKey ∧
    (commitHandler P gen srv req).1.privateKey = srv.privateKey := by
  rcases commitHandler_cases P gen srv req with ⟨h, _⟩ | ⟨r, st, rounds1, _, _, _, _, _, _, h⟩
  · rw [h]; exact ⟨rfl, rfl, rfl⟩
  · rw [h]; exact ⟨rfl, rfl, rfl⟩

theorem revealHandler_keys (P : Prims) (srv : Server) (req : Request revealArgs) :
    (revealHandler P srv req).1.coordinatorKey = srv.coordinatorKey ∧
    (revealHandler P srv req).1.publicKey = srv.publicKey ∧
    (revealHandler P srv req).1.privateKey = srv.privateKey := by
  rcases revealHandler_cases P srv req with h | ⟨args, st, sig, _, _, _, _, h⟩
  · rw [h]; exact ⟨rfl, rfl, rfl⟩
  · rw [h]; exact ⟨rfl, rfl, rfl⟩

/-- A reveal never touches a round state that has its signature. -/
theorem revealHandler_keeps_latched (P : Prims) (srv : Server) (req : Request revealArgs)
    (r : Nat) (st : roundState) (sig : Bytes)
    (hst : mapGet srv.rounds r = some st) (hs : st.revealSignature = some sig) :
    mapGet (revealHandler P srv req).1.rounds r = some st := by
  rcases revealHandler_cases P srv req with h | ⟨args, st2, sig2, _, _, hst2, hs2, h⟩
  · rw [h]; exact hst
  · rw [h]
    show mapGet (latchSignature srv.rounds args.Round sig2) r = some st
    rw [mapGet_latchSignature, hst]
    have hne : ¬ r = args.Round := by
      intro e
      rw [e, hst2] at hst
      cases hst
      rw [hs2] at hs
      cases hs
    simp [hne]

/-- A commit that does not delete round `r` leaves the state of `r` as it
was. -/
theorem commitHandler_keeps_round (P : Prims) (gen : KeyGen) (srv : Server)
    (req : Request commitArgs) (r : Nat) (st : roundState)
    (hst : mapGet srv.rounds r = some st)
    (hno : ∀ r2, authorized srv.coordinatorKey req = .ok () → req.body = some ⟨r2⟩ →
      ¬ r < roundMinusOne r2) :
    mapGet (commitHandler P gen srv req).1.rounds r = some st := by
  rcases commitHandler_cases P gen srv req with ⟨h, _⟩ |
    ⟨r2, st2, rounds1, ha, hb, hst2, hother, hsame, _, h⟩
  · rw [h]; exact hst
  · rw [h]
    show mapGet (evictRounds rounds1 r2) r = some st
    rw [mapGet_evictRounds, if_neg (hno r2 ha hb)]
    by_cases e : r = r2
    · subst e
      rw [hst2, hsame st hst]
    · rw [hother r e, hst]

/-! ## Lemmas on runs of the handlers -/

/-- A reveal that answers with a reply leaves the signature of the reply
latched on the state of its round, next to the public keys of the reply. -/
theorem revealHandler_success_latched (P : Prims) (srv : Server) (req : Request revealArgs)
    (args : revealArgs) (reply : RevealReply) (hb : req.body = some args)
    (h : (revealHandler P srv req).2 = .reveal reply) :
    authorized srv.coordinatorKey req = .ok () ∧
    ∃ st, mapGet (revealHandler P srv req).1.rounds args.Round = some st ∧
      st.revealSignature = some reply.Signature ∧
      st.masterPublicKey = reply.MasterPublicKey ∧ st.blsPublicKey = reply.BLSPublicKey := by
  rcases authorized_cases srv.coordinatorKey req with ha | ha
  swap
  · rw [revealHandler_unauthorized P srv req _ ha] at h
    cases h
  refine ⟨ha, ?_⟩
  cases hst : mapGet srv.rounds args.Round with
  | none =>
    rw [revealHandler_notFound P srv req args ha hb hst] at h
    cases h
  | some st =>
    cases hs : st.revealSignature with
    | some sig =>
      rw [revealHandler_latched P srv req args st sig ha hb hst hs] at h ⊢
      cases h
      exact ⟨st, hst, hs, rfl, rfl⟩
    | none =>
      rw [revealHandler_unlatched P srv req args st ha hb hst hs] at h ⊢
      split at h
      · cases h
      · rw [if_neg (by assumption)]
        split at h
        · cases h
        · rename_i buf hbuf
          cases h
          refine ⟨{ st with revealSignature := some (P.sign srv.privateKey buf) }, ?_, rfl, rfl, rfl⟩
          show mapGet (latchSignature srv.rounds args.Round _) args.Round = _
          rw [mapGet_latchSignature, hst]
          simp

theorem runReveals_keys (P : Prims) (srv : Server) (reqs : List (Request revealArgs)) :
    (runReveals P srv reqs).coordinatorKey = srv.coordinatorKey := by
  induction reqs generalizing srv with
  | nil => rfl
  | cons req rest ih =>
    show (runReveals P (revealHandler P srv req).1 rest).coordinatorKey = _
    rw [ih, (revealHandler_keys P srv req).1]

theorem runReveals_keeps_latched (P : Prims) (srv : Server) (reqs : List (Request revealArgs))
    (r : Nat) (st : roundState) (sig : Bytes)
    (hst : mapGet srv.rounds r = some st) (hs : st.revealSignature = some sig) :
    mapGet (runReveals P srv reqs).rounds r = some st := by
  induction reqs generalizing srv with
  | nil => exact hst
  | cons req rest ih =>
    exact ih (revealHandler P srv req).1 (revealHandler_keeps_latched P srv req r st sig hst hs)

/-- A commit that answers with a commitment, for a round that its own deletion
loop spares, leaves a state for the round whose commitment is the answer. -/
theorem commitHandler_success_stored (P : Prims) (gen : KeyGen) (srv : Server)
    (req : Request commitArgs) (r : Nat) (c : commitReply) (hb : req.body = some ⟨r⟩)
    (hkeep : ¬ r < roundMinusOne r)
    (h : (commitHandler P gen srv req).2 = .commit c) :
    authorized srv.coordinatorKey req = .ok () ∧
    ∃ st, mapGet (commitHandler P gen srv req).1.rounds r = some st ∧
      c = ⟨commitTo P st.masterPublicKey st.blsPublicKey⟩ ∧
      (mapGet srv.rounds r = none → st.revealSignature = none) := by
  rcases commitHandler_cases P gen srv req with ⟨_, hn⟩ |
    ⟨r2, st, rounds1, ha, hb2, hst, _, _, hfresh, heq⟩
  · exact absurd h (hn c)
  · rw [hb] at hb2
    cases hb2
    refine ⟨ha, st, ?_, ?_, hfresh⟩
    · rw [heq]
      show mapGet (evictRounds rounds1 r) r = some st
      rw [mapGet_evictRounds, if_neg hkeep, hst]
    · rw [heq] at h
      cases h
      rfl

/-- Commit idempotence on the rounds `1 ≤ r < 2^32`: a second commit for `r`
answers the commitment of the first, whatever the random source holds for it,
and the state stored for `r` is the same after it. -/
theorem commit_twice_of_pos (P : Prims) (gen1 gen2 : KeyGen) (srv : Server)
    (req : Request commitArgs) (r : Nat) (c : commitReply)
    (hb : req.body = some ⟨r⟩) (h0 : 0 < r) (hr : r < 2 ^ 32)
    (h1 : (commitHandler P gen1 srv req).2 = .commit c) :
    (commitHandler P gen2 (commitHandler P gen1 srv req).1 req).2 = .commit c ∧
    ∃ st, mapGet (commitHandler P gen1 srv req).1.rounds r = some st ∧
      mapGet (commitHandler P gen2 (commitHandler P gen1 srv req).1 req).1.rounds r = some st := by
  have hkeep : ¬ r < roundMinusOne r := by
    rw [roundMinusOne_of_pos r h0 hr]; omega
  obtain ⟨ha, st, hst, hc, _⟩ := commitHandler_success_stored P gen1 srv req r c hb hkeep h1
  have ha2 : authorized (commitHandler P gen1 srv req).1.coordinatorKey req = .ok () := by
    rw [(commitHandler_keys P gen1 srv req).1]; exact ha
  have h2 := commitHandler_found P gen2 (commitHandler P gen1 srv req).1 req r st ha2 hb hst
  refine ⟨?_, st, hst, ?_⟩
  · rw [h2, hc]
  · rw [h2]
    show mapGet (evictRounds _ r) r = some st
    rw [mapGet_evictRounds, if_neg hkeep, hst]

/-! ## Lemmas on the attestation message -/

theorem appendCommitments_congr (C C' : List (Bytes × Bytes)) (n : Nat) (keys : List Bytes)
    (buf : Bytes) (h : ∀ k ∈ keys, mapGet C k = mapGet C' k) :
    appendCommitments C n keys buf = appendCommitments C' n keys buf := by
  induction keys generalizing buf with
  | nil => rfl
  | cons k rest ih =>
    have hk := h k (List.mem_cons_self _ _)
    have hrest : ∀ k ∈ rest, mapGet C k = mapGet C' k :=
      fun x hx => h x (List.mem_cons_of_mem _ hx)
    simp only [appendCommitments, hk, ih _ hrest]

theorem appendCommitments_ok_iff (C : List (Bytes × Bytes)) (n : Nat) (keys : List Bytes)
    (buf : Bytes) :
    (∃ msg, appendCommitments C n keys buf = .ok msg) ↔
      ∀ k ∈ keys, k.length = 64 ∧ ((mapGet C k).getD []).length = n := by
  induction keys generalizing buf with
  | nil => simp [appendCommitments]
  | cons k rest ih =>
    simp only [appendCommitments, EncodedLen, PublicKeySize, List.mem_cons, forall_eq_or_imp]
    by_cases h1 : k.length = 64
    · by_cases h2 : ((mapGet C k).getD []).length = n
      · simp only [h1, h2, ne_eq, not_true_eq_false, if_false, true_and]
        exact ih _
      · simp [h1, h2]
    · simp [h1]

theorem appendCommitments_error (C : List (Bytes × Bytes)) (n : Nat) (keys : List Bytes)
    (buf : Bytes) (code : ErrorCode) (h : appendCommitments C n keys buf = .error code) :
    code = .ErrBadCommitment := by
  induction keys generalizing buf with
  | nil => simp [appendCommitments] at h
  | cons k rest ih =>
    simp only [appendCommitments] at h
    split at h
    · cases h; rfl
    · split at h
      · cases h; rfl
      · exact ih _ h

theorem revealMessage_perm (round : Nat) (C C' : List (Bytes × Bytes)) (n : Nat)
    (hC : C.Perm C') (hnd : (mapKeys C).Nodup) :
    revealMessage round C n = revealMessage round C' n := by
  unfold revealMessage
  rw [sortStrings_eq_of_perm (mapKeys C) (mapKeys C') (hC.map Prod.fst)]
  exact appendCommitments_congr C C' n _ _ (fun k _ => mapGet_perm C C' k hC hnd)

theorem revealHandler_congr (P : Prims) (srv : Server) (certs : List Certificate)
    (round : Nat) (C C' : List (Bytes × Bytes))
    (hself : mapGet C (EncodeToString srv.publicKey) = mapGet C' (EncodeToString srv.publicKey))
    (hmsg : ∀ n, revealMessage round C n = revealMessage round C' n) :
    revealHandler P srv ⟨certs, some ⟨round, C⟩⟩ = revealHandler P srv ⟨certs, some ⟨round, C'⟩⟩ := by
  simp only [revealHandler, authorized, hself, hmsg]

theorem all_eq_of_perm {α : Type} (f : α → Bool) (l l' : List α) (h : l.Perm l') :
    l.all f = l'.all f := by
  rw [Bool.eq_iff_iff, List.all_eq_true, List.all_eq_true]
  exact ⟨fun hl x hx => hl x (h.mem_iff.mpr hx), fun hl x hx => hl x (h.mem_iff.mp hx)⟩

theorem verifyMessage_perm (P : Prims) (s : RoundSettings) (round : Nat)
    (keys keys' : List Bytes) (h : keys.Perm keys') :
    verifyMessage P s round keys = verifyMessage P s round keys' := by
  unfold verifyMessage
  rw [sortStrings_eq_of_perm _ _ (h.map EncodeToString)]

theorem entries_checked_iff (C : List (Bytes × Bytes)) (n : Nat) (hnd : (mapKeys C).Nodup) :
    (∀ k ∈ sortStrings (mapKeys C), k.length = 64 ∧ ((mapGet C k).getD []).length = n) ↔
      ∀ kv ∈ C, kv.1.length = 64 ∧ kv.2.length = n := by
  constructor
  · intro h kv hkv
    have hk : kv.1 ∈ sortStrings (mapKeys C) :=
      (mem_sortStrings _ _).mpr (List.mem_map_of_mem Prod.fst hkv)
    have hget : mapGet C kv.1 = some kv.2 := mapGet_of_mem C kv.1 kv.2 hnd hkv
    have := h kv.1 hk
    rw [hget] at this
    exact this
  · intro h k hk
    have hk2 : k ∈ mapKeys C := (mem_sortStrings _ _).mp hk
    cases hget : mapGet C k with
    | none => exact absurd hk2 ((mapGet_eq_none_iff C k).mp hget)
    | some v => exact h (k, v) (mapGet_mem C k v hget)

theorem revealMessage_ok_iff (round : Nat) (C : List (Bytes × Bytes)) (n : Nat)
    (hnd : (mapKeys C).Nodup) :
    (∃ msg, revealMessage round C n = .ok msg) ↔
      ∀ kv ∈ C, kv.1.length = 64 ∧ kv.2.length = n := by
  unfold revealMessage
  rw [appendCommitments_ok_iff, entries_checked_iff C n hnd]

theorem revealMessage_error (round : Nat) (C : List (Bytes × Bytes)) (n : Nat)
    (code : ErrorCode) (h : revealMessage round C n = .error code) :
    code = .ErrBadCommitment :=
  appendCommitments_error C n _ _ code h

theorem run_keeps_latched (P : Prims) (calls : List Call) (srv : Server) (r : Nat)
    (st : roundState) (sig : Bytes)
    (hst : mapGet srv.rounds r = some st) (hs : st.revealSignature = some sig)
    (hno : ∀ call ∈ calls, evicts srv.coordinatorKey r call = false) :
    mapGet (run P srv calls).rounds r = some st ∧
      (run P srv calls).coordinatorKey = srv.coordinatorKey := by
  induction calls generalizing srv with
  | nil => exact ⟨hst, rfl⟩
  | cons call rest ih =>
    have hcall := hno call (List.mem_cons_self _ _)
    have hstep : mapGet (serve P srv call).1.rounds r = some st ∧
        (serve P srv call).1.coordinatorKey = srv.coordinatorKey := by
      cases call with
      | commit gen req =>
        refine ⟨commitHandler_keeps_round P gen srv req r st hst ?_,
          (commitHandler_keys P gen srv req).1⟩
        intro r2 ha hb hlt
        simp [evicts, ha, hb, hlt] at hcall
      | reveal req =>
        exact ⟨revealHandler_keeps_latched P srv req r st sig hst hs,
          (revealHandler_keys P srv req).1⟩
    have hrest : ∀ c ∈ rest, evicts (serve P srv call).1.coordinatorKey r c = false := by
      intro c hc
      rw [hstep.2]
      exact hno c (List.mem_cons_of_mem _ hc)
    have := ih (serve P srv call).1 hstep.1 hrest
    exact ⟨this.1, this.2.trans hstep.2⟩

/-! ## Lemmas on hex strings -/

theorem EncodeToString_length (k : Bytes) : (EncodeToString k).length = EncodedLen k.length := by
  induction k with
  | nil => rfl
  | cons v rest ih =>
    simp only [EncodeToString, List.length_cons, ih, EncodedLen]
    omega

theorem hextable_injective :
    ∀ a < 16, ∀ b < 16, hextable.getD a 0 = hextable.getD b 0 → a = b := by
  decide

theorem EncodeToString_injective (k k2 : Bytes) (hk : ∀ b ∈ k, b < 256) (hk2 : ∀ b ∈ k2, b < 256)
    (h : EncodeToString k = EncodeToString k2) : k = k2 := by
  induction k generalizing k2 with
  | nil =>
    cases k2 with
    | nil => rfl
    | cons w rest2 => simp [EncodeToString] at h
  | cons v rest ih =>
    cases k2 with
    | nil => simp [EncodeToString] at h
    | cons w rest2 =>
      simp only [EncodeToString, List.cons.injEq] at h
      have hv : v < 256 := hk v (List.mem_cons_self _ _)
      have hw : w < 256 := hk2 w (List.mem_cons_self _ _)
      have hhi := hextable_injective (v / 16) (by omega) (w / 16) (by omega) h.1
      have hlo := hextable_injective (v % 16) (by omega) (w % 16) (by omega) h.2.1
      have hvw : v = w := by omega
      have hrest := ih rest2 (fun b hb => hk b (List.mem_cons_of_mem _ hb))
        (fun b hb => hk2 b (List.mem_cons_of_mem _ hb)) h.2.2
      rw [hvw, hrest]

theorem loops_agree (P : Prims) (s : RoundSettings) (C : List (Bytes × Bytes))
    (keys : List Bytes) (buf : Bytes)
    (h : ∀ k ∈ keys, k.length = 64 ∧ ∃ reply, mapGet s k = some reply ∧
      mapGet C k = some (commitTo P reply.MasterPublicKey reply.BLSPublicKey)) :
    ∃ msg, appendCommitments C 32 keys buf = .ok msg ∧
      verifyMessageLoop P s keys buf = some msg := by
  induction keys generalizing buf with
  | nil => exact ⟨buf, rfl, rfl⟩
  | cons k rest ih =>
    obtain ⟨hlen, reply, hs, hC⟩ := h k (List.mem_cons_self _ _)
    have hc32 : (commitTo P reply.MasterPublicKey reply.BLSPublicKey).length = 32 :=
      P.sum512_256_size _
    obtain ⟨msg, h1, h2⟩ := ih (buf ++ k ++ commitTo P reply.MasterPublicKey reply.BLSPublicKey)
      (fun x hx => h x (List.mem_cons_of_mem _ hx))
    refine ⟨msg, ?_, ?_⟩
    · simp only [appendCommitments, EncodedLen, PublicKeySize, hlen, hC, Option.getD_some, hc32,
        ne_eq, not_true_eq_false, if_false]
      exact h1
    · simp only [verifyMessageLoop, hs]
      exact h2

/-! ## Identity codec: the claims -/

/-- C1, as stated, fails: the three-byte username `a@\0` is accepted by
`ValidateUsername` (whatever the lowercasing of non-ASCII strings is), and
`IdentityToUsername (ValidUsernameToIdentity u)` is the two-byte `a@`, which is
not `u`. -/
theorem C1_roundtrip_counterexample :
    (∀ mapLower : Bytes → Bytes, ValidateUsername mapLower [97, 64, 0] = none) ∧
      IdentityToUsername (ValidUsernameToIdentity [97, 64, 0]) = [97, 64] ∧
      IdentityToUsername (ValidUsernameToIdentity [97, 64, 0]) ≠ [97, 64, 0] :=
  ⟨fun _ => rfl, by decide, by decide⟩

/-- C1, amended: for every username `u` that `ValidateUsername` accepts and
that contains no zero byte, `IdentityToUsername (ValidUsernameToIdentity u) = u`
(usernames of exactly 64 bytes included). -/
theorem C1_roundtrip_valid_no_zero (mapLower : Bytes → Bytes) (u : Bytes)
    (hv : ValidateUsername mapLower u = none) (h0 : 0 ∉ u) :
    IdentityToUsername (ValidUsernameToIdentity u) = u :=
  identity_roundtrip_of_no_zero u ((validate_none_iff mapLower u).mp hv).2.1 h0

/-- C1, amended, at the username `a@b`. -/
theorem C1_roundtrip_valid_no_zero_witness :
    ValidateUsername id [97, 64, 98] = none ∧
      IdentityToUsername (ValidUsernameToIdentity [97, 64, 98]) = [97, 64, 98] :=
  ⟨by decide, C1_roundtrip_valid_no_zero id [97, 64, 98] (by decide) (by decide)⟩

/-- C2: `ValidateUsername u` is `nil` exactly when the byte length of `u` is
between 3 and 64, the byte `@` occurs in `u`, and `u` equals `ToLower u`; in
every other case it is an error. -/
theorem C2_validate_iff (mapLower : Bytes → Bytes) (u : Bytes) :
    (ValidateUsername mapLower u = none ↔
      (3 ≤ u.length ∧ u.length ≤ 64) ∧ 64 ∈ u ∧ u = ToLower mapLower u) ∧
    (¬ ((3 ≤ u.length ∧ u.length ≤ 64) ∧ 64 ∈ u ∧ u = ToLower mapLower u) →
      ∃ err, ValidateUsername mapLower u = some err) := by
  have key : ValidateUsername mapLower u = none ↔
      (3 ≤ u.length ∧ u.length ≤ 64) ∧ 64 ∈ u ∧ u = ToLower mapLower u := by
    rw [validate_none_iff, Ne, IndexByte_eq_neg_one_iff, not_not]
    tauto
  refine ⟨key, fun h => ?_⟩
  cases hv : ValidateUsername mapLower u with
  | none => exact absurd (key.mp hv) h
  | some err => exact ⟨err, rfl⟩

/-! ## The round state machine: the claims -/

/-- C3 at round 0, where the code departs from the claim: whatever the registry
held, after an authorized `commit(0)` it holds no state for round 0 (the
deletion loop compares with `0-1 = 2^32-1`), so the next authorized `commit(0)`
generates keys again and answers the commitment to those fresh keys. -/
theorem C3_commit_zero_regenerates (P : Prims) (srv : Server) (gen1 : KeyGen)
    (ibePub ibePriv blsPub blsPriv : Bytes) :
    mapGet (commitHandler P gen1 srv ⟨[⟨srv.coordinatorKey⟩], some ⟨0⟩⟩).1.rounds 0 = none ∧
    (commitHandler P ⟨ibePub, ibePriv, some (blsPub, blsPriv)⟩
        (commitHandler P gen1 srv ⟨[⟨srv.coordinatorKey⟩], some ⟨0⟩⟩).1
        ⟨[⟨srv.coordinatorKey⟩], some ⟨0⟩⟩).2 = .commit ⟨commitTo P ibePub blsPub⟩ ∧
    mapGet (commitHandler P ⟨ibePub, ibePriv, some (blsPub, blsPriv)⟩
        (commitHandler P gen1 srv ⟨[⟨srv.coordinatorKey⟩], some ⟨0⟩⟩).1
        ⟨[⟨srv.coordinatorKey⟩], some ⟨0⟩⟩).1.rounds 0 = none := by
  have hevict : ∀ (s : Server) (g : KeyGen),
      mapGet (commitHandler P g s ⟨[⟨s.coordinatorKey⟩], some ⟨0⟩⟩).1.rounds 0 = none := by
    intro s g
    rcases commitHandler_cases P g s ⟨[⟨s.coordinatorKey⟩], some ⟨0⟩⟩ with ⟨h, hn⟩ |
      ⟨r2, st, rounds1, _, hb2, _, _, _, _, heq⟩
    · rw [h]
      cases hst : mapGet s.rounds 0 with
      | none => rfl
      | some st =>
        have ha : authorized s.coordinatorKey
            (⟨[⟨s.coordinatorKey⟩], some ⟨0⟩⟩ : Request commitArgs) = .ok () := by
          simp [authorized, GetSigningKey]
        exact absurd (congrArg Prod.snd (commitHandler_found P g s _ 0 st ha rfl hst)) (hn _)
    · cases hb2
      rw [heq]
      show mapGet (evictRounds rounds1 0) 0 = none
      rw [mapGet_evictRounds]
      simp [roundMinusOne]
  have hkey := (commitHandler_keys P gen1 srv ⟨[⟨srv.coordinatorKey⟩], some ⟨0⟩⟩).1
  have h1 := hevict srv gen1
  have ha : authorized (commitHandler P gen1 srv ⟨[⟨srv.coordinatorKey⟩], some ⟨0⟩⟩).1.coordinatorKey
      (⟨[⟨srv.coordinatorKey⟩], some ⟨0⟩⟩ : Request commitArgs) = .ok () := by
    rw [hkey]; simp [authorized, GetSigningKey]
  have h2 := commitHandler_fresh P ⟨ibePub, ibePriv, some (blsPub, blsPriv)⟩
    (commitHandler P gen1 srv ⟨[⟨srv.coordinatorKey⟩], some ⟨0⟩⟩).1
    ⟨[⟨srv.coordinatorKey⟩], some ⟨0⟩⟩ 0 blsPub blsPriv ha rfl h1 rfl
  refine ⟨h1, ?_, ?_⟩
  · rw [h2]
  · have := hevict (commitHandler P gen1 srv ⟨[⟨srv.coordinatorKey⟩], some ⟨0⟩⟩).1
      ⟨ibePub, ibePriv, some (blsPub, blsPriv)⟩
    rw [hkey] at this
    exact this

/-- C3 at round 0 on an empty registry, evaluated: two successive authorized
`commit(0)` calls answer two different commitments. -/
theorem commit_zero_twice_differs :
    (commitHandler toyPrims ⟨[1], [2], some ([3], [4])⟩ ⟨[], [5], [6], [7], [8]⟩
        ⟨[⟨[7]⟩], some ⟨0⟩⟩).2 ≠
    (commitHandler toyPrims ⟨[11], [12], some ([13], [14])⟩
        (commitHandler toyPrims ⟨[1], [2], some ([3], [4])⟩ ⟨[], [5], [6], [7], [8]⟩
          ⟨[⟨[7]⟩], some ⟨0⟩⟩).1
        ⟨[⟨[7]⟩], some ⟨0⟩⟩).2 := by
  decide

/-- C4: after a reveal for round `r` that answered with a reply, any further
reveal requests served in between, an authorized reveal for `r` answers with
that same reply (master public keys and signature), whatever commitments map
it carries. -/
theorem C4_reveal_latched (P : Prims) (srv : Server) (req1 req2 : Request revealArgs)
    (args1 args2 : revealArgs) (reply1 : RevealReply) (mid : List (Request revealArgs))
    (hb1 : req1.body = some args1)
    (h1 : (revealHandler P srv req1).2 = .reveal reply1)
    (ha2 : authorized srv.coordinatorKey req2 = .ok ())
    (hb2 : req2.body = some args2) (hr : args2.Round = args1.Round) :
    (revealHandler P (runReveals P (revealHandler P srv req1).1 mid) req2).2 =
      .reveal reply1 := by
  obtain ⟨_, st, hst, hs, hm, hbls⟩ := revealHandler_success_latched P srv req1 args1 reply1 hb1 h1
  have hst2 := runReveals_keeps_latched P _ mid args1.Round st _ hst hs
  have hkey : (runReveals P (revealHandler P srv req1).1 mid).coordinatorKey =
      srv.coordinatorKey := by
    rw [runReveals_keys, (revealHandler_keys P srv req1).1]
  rw [← hr] at hst2
  rw [revealHandler_latched P _ req2 args2 st _ (by rw [hkey]; exact ha2) hb2 hst2 hs,
    hm, hbls]

/-- C4 on `examplePKG`: after the reveal of round 5 with `exampleMap`, and a
reveal with a malformed map served in between, a reveal of round 5 with the
empty map answers `exampleReply`. -/
theorem C4_reveal_latched_witness :
    (revealHandler toyPrims (commitHandler toyPrims (exampleGen 10) examplePKG (exampleCommit 5)).1
        (exampleReveal 5 exampleMap)).2 = .reveal exampleReply ∧
    (revealHandler toyPrims
      (runReveals toyPrims
        (revealHandler toyPrims
          (commitHandler toyPrims (exampleGen 10) examplePKG (exampleCommit 5)).1
          (exampleReveal 5 exampleMap)).1
        [exampleReveal 5 [([1], [2])]])
      (exampleReveal 5 [])).2 = .reveal exampleReply :=
  ⟨by decide,
    C4_reveal_latched toyPrims
      (commitHandler toyPrims (exampleGen 10) examplePKG (exampleCommit 5)).1
      (exampleReveal 5 exampleMap) (exampleReveal 5 []) ⟨5, exampleMap⟩ ⟨5, []⟩ exampleReply
      [exampleReveal 5 [([1], [2])]] rfl (by decide) rfl rfl rfl⟩

/-- C5: PKGs with pairwise distinct 32-byte signing keys each hold a state
without signature for the round, and the coordinator sends every one of them
the map from `hex(pk_i)` to `commitTo(ibe_i, bls_i)`.  Then the message is built
without error, every PKG replies with its public keys and its signature of that
one message, the message `Verify` rebuilds from the key list and the replies is
that same message, and `Verify` returns `true`, provided `ed25519.Verify`
accepts under each PKG's public key what `ed25519.Sign` produces with its
private key. -/
theorem C5_verify_correct_round (P : Prims) (round : Nat) (pkgs : List (Server × roundState))
    (req : Request revealArgs)
    (hdist : (pkgs.map (fun p => p.1.publicKey)).Nodup)
    (hkey : ∀ p ∈ pkgs, p.1.publicKey.length = 32 ∧ ∀ b ∈ p.1.publicKey, b < 256)
    (hst : ∀ p ∈ pkgs, mapGet p.1.rounds round = some p.2 ∧ p.2.revealSignature = none)
    (hauth : ∀ p ∈ pkgs, authorized p.1.coordinatorKey req = .ok ())
    (hbody : req.body = some ⟨round, roundCommitments P pkgs⟩)
    (hsig : ∀ p ∈ pkgs, ∀ m, P.verify p.1.publicKey m (P.sign p.1.privateKey m) = true) :
    ∃ msg,
      revealMessage round (roundCommitments P pkgs) 32 = .ok msg ∧
      (∀ p ∈ pkgs, (revealHandler P p.1 req).2 =
        .reveal ⟨p.2.masterPublicKey, p.2.blsPublicKey, P.sign p.1.privateKey msg⟩) ∧
      verifyMessage P (roundSettings P pkgs msg) round (pkgs.map (fun p => p.1.publicKey)) =
        some msg ∧
      Verify P (roundSettings P pkgs msg) round (pkgs.map (fun p => p.1.publicKey)) = true := by
  have hinj : ∀ p ∈ pkgs, ∀ q ∈ pkgs,
      EncodeToString p.1.publicKey = EncodeToString q.1.publicKey → p = q := by
    intro p hp q hq h
    exact List.inj_on_of_nodup_map hdist hp hq
      (EncodeToString_injective _ _ (hkey p hp).2 (hkey q hq).2 h)
  have hnd : (pkgs.map (fun p => EncodeToString p.1.publicKey)).Nodup :=
    List.Nodup.map_on hinj (List.Nodup.of_map _ hdist)
  have hkeysC : mapKeys (roundCommitments P pkgs) = pkgs.map (fun p => EncodeToString p.1.publicKey) := by
    simp [mapKeys, roundCommitments, List.map_map, Function.comp_def]
  have hkeysS : ∀ msg, mapKeys (roundSettings P pkgs msg) =
      pkgs.map (fun p => EncodeToString p.1.publicKey) := by
    intro msg
    simp [mapKeys, roundSettings, List.map_map, Function.comp_def]
  have hgetC : ∀ p ∈ pkgs, mapGet (roundCommitments P pkgs) (EncodeToString p.1.publicKey) =
      some (commitTo P p.2.masterPublicKey p.2.blsPublicKey) := by
    intro p hp
    apply mapGet_of_mem _ _ _ (by rw [hkeysC]; exact hnd)
    exact List.mem_map.mpr ⟨p, hp, rfl⟩
  have hgetS : ∀ msg, ∀ p ∈ pkgs, mapGet (roundSettings P pkgs msg) (EncodeToString p.1.publicKey) =
      some ⟨p.2.masterPublicKey, p.2.blsPublicKey, P.sign p.1.privateKey msg⟩ := by
    intro msg p hp
    apply mapGet_of_mem _ _ _ (by rw [hkeysS]; exact hnd)
    exact List.mem_map.mpr ⟨p, hp, rfl⟩
  have hsorted : sortStrings (mapKeys (roundCommitments P pkgs)) =
      sortStrings ((pkgs.map (fun p => p.1.publicKey)).map EncodeToString) := by
    rw [hkeysC, List.map_map]
    rfl
  have hloop : ∀ s0 : Bytes, ∀ k ∈ sortStrings (mapKeys (roundCommitments P pkgs)),
      k.length = 64 ∧ ∃ reply, mapGet (roundSettings P pkgs s0) k = some reply ∧
        mapGet (roundCommitments P pkgs) k =
          some (commitTo P reply.MasterPublicKey reply.BLSPublicKey) := by
    intro s0 k hk
    rw [mem_sortStrings, hkeysC] at hk
    obtain ⟨p, hp, rfl⟩ := List.mem_map.mp hk
    refine ⟨?_, _, hgetS s0 p hp, hgetC p hp⟩
    rw [EncodeToString_length, (hkey p hp).1]
    rfl
  -- the message built by the reveal, for the settings signed over any message
  have hmsg : ∃ msg, revealMessage round (roundCommitments P pkgs) 32 = .ok msg ∧
      ∀ s0, verifyMessage P (roundSettings P pkgs s0) round
        (pkgs.map (fun p => p.1.publicKey)) = some msg := by
    obtain ⟨msg, h1, _⟩ := loops_agree P (roundSettings P pkgs []) (roundCommitments P pkgs) _
      (commitmentsTag ++ bigEndian32 round) (hloop [])
    refine ⟨msg, h1, fun s0 => ?_⟩
    obtain ⟨msg2, h3, h4⟩ := loops_agree P (roundSettings P pkgs s0) (roundCommitments P pkgs) _
      (commitmentsTag ++ bigEndian32 round) (hloop s0)
    have : msg2 = msg := by
      rw [h1] at h3
      cases h3
      rfl
    unfold verifyMessage
    rw [← hsorted, h4, this]
  obtain ⟨msg, hm1, hm2⟩ := hmsg
  refine ⟨msg, hm1, ?_, hm2 msg, ?_⟩
  · intro p hp
    have hc32 : (commitTo P p.2.masterPublicKey p.2.blsPublicKey).length = 32 :=
      P.sum512_256_size _
    rw [revealHandler_unlatched P p.1 req ⟨round, roundCommitments P pkgs⟩ p.2 (hauth p hp) hbody
      (hst p hp).1 (hst p hp).2]
    simp only [hgetC p hp, Option.getD_some, ne_eq, not_true_eq_false, if_false, hc32, hm1]
  · unfold Verify
    rw [hm2 msg]
    simp only [List.all_eq_true, List.mem_map]
    rintro key ⟨p, hp, rfl⟩
    rw [hgetS msg p hp]
    exact hsig p hp msg

/-- C5 on the two PKGs of `examplePKGs`, round 5. -/
theorem C5_verify_correct_round_witness :
    (examplePKGs.map (fun p => p.1.publicKey)).Nodup ∧
    ∃ msg,
      revealMessage 5 (roundCommitments toyPrims examplePKGs) 32 = .ok msg ∧
      (∀ p ∈ examplePKGs,
        (revealHandler toyPrims p.1 (exampleReveal 5 (roundCommitments toyPrims examplePKGs))).2 =
          .reveal ⟨p.2.masterPublicKey, p.2.blsPublicKey, toyPrims.sign p.1.privateKey msg⟩) ∧
      verifyMessage toyPrims (roundSettings toyPrims examplePKGs msg) 5
        (examplePKGs.map (fun p => p.1.publicKey)) = some msg ∧
      Verify toyPrims (roundSettings toyPrims examplePKGs msg) 5
        (examplePKGs.map (fun p => p.1.publicKey)) = true :=
  ⟨by decide,
    C5_verify_correct_round toyPrims 5 examplePKGs
      (exampleReveal 5 (roundCommitments toyPrims examplePKGs))
      (by decide) (by decide) (by decide)
      (by
        intro p hp
        simp only [examplePKGs, List.mem_cons, List.mem_singleton, List.not_mem_nil, or_false] at hp
        rcases hp with rfl | rfl <;> rfl)
      rfl
      (by
        intro p hp m
        simp only [examplePKGs, List.mem_cons, List.mem_singleton, List.not_mem_nil, or_false] at hp
        rcases hp with rfl | rfl <;> simp [toyPrims, examplePeer])⟩

/-- C6: the attestation message does not depend on the order the keys or the
map entries come in.  For key lists that are permutations of each other,
`Verify` rebuilds the same message, whatever the keys are, and returns the same
result when every key has the `PublicKeySize` bytes of an ed25519 public key
(on any other key `ed25519.Verify` panics, and which key the loop reaches first
depends on the order); for two enumerations of one commitments map,
`revealHandler` builds the same message and the whole reveal (new state and
response) is the same. -/
theorem C6_order_independent (P : Prims) (s : RoundSettings) (round : Nat)
    (keys keys' : List Bytes) (srv : Server) (certs : List Certificate)
    (C C' : List (Bytes × Bytes))
    (hk : keys.Perm keys') (hC : C.Perm C') (hnd : (mapKeys C).Nodup) :
    verifyMessage P s round keys = verifyMessage P s round keys' ∧
    ((∀ key ∈ keys, key.length = PublicKeySize) →
      (∀ key ∈ keys', key.length = PublicKeySize) ∧
        Verify P s round keys = Verify P s round keys') ∧
    (∀ n, revealMessage round C n = revealMessage round C' n) ∧
    revealHandler P srv ⟨certs, some ⟨round, C⟩⟩ =
      revealHandler P srv ⟨certs, some ⟨round, C'⟩⟩ := by
  have hm := verifyMessage_perm P s round keys keys' hk
  have hr : ∀ n, revealMessage round C n = revealMessage round C' n :=
    fun n => revealMessage_perm round C C' n hC hnd
  refine ⟨hm, fun hsize => ⟨fun key hkey => hsize key (hk.mem_iff.mpr hkey), ?_⟩, hr,
    revealHandler_congr P srv certs round C C' (mapGet_perm C C' _ hC hnd) hr⟩
  unfold Verify
  rw [hm]
  cases verifyMessage P s round keys' with
  | none => rfl
  | some msg => exact all_eq_of_perm _ keys keys' hk

/-- C6 on the two PKGs of `examplePKGs`: their keys and their commitments map,
each in both orders. -/
theorem C6_order_independent_witness :
    (mapKeys (roundCommitments toyPrims examplePKGs)).Nodup ∧
    (∀ key ∈ [List.replicate 32 1, List.replicate 32 2], key.length = PublicKeySize) ∧
    verifyMessage toyPrims (roundSettings toyPrims examplePKGs []) 5
        [List.replicate 32 1, List.replicate 32 2] =
      verifyMessage toyPrims (roundSettings toyPrims examplePKGs []) 5
        [List.replicate 32 2, List.replicate 32 1] ∧
    ((∀ key ∈ [List.replicate 32 1, List.replicate 32 2], key.length = PublicKeySize) →
      (∀ key ∈ [List.replicate 32 2, List.replicate 32 1], key.length = PublicKeySize) ∧
        Verify toyPrims (roundSettings toyPrims examplePKGs []) 5
            [List.replicate 32 1, List.replicate 32 2] =
          Verify toyPrims (roundSettings toyPrims examplePKGs []) 5
            [List.replicate 32 2, List.replicate 32 1]) ∧
    (∀ n, revealMessage 5 (roundCommitments toyPrims examplePKGs) n =
      revealMessage 5 (roundCommitments toyPrims examplePKGs).reverse n) ∧
    revealHandler toyPrims (examplePeer 1 10)
        ⟨[⟨[7]⟩], some ⟨5, roundCommitments toyPrims examplePKGs⟩⟩ =
      revealHandler toyPrims (examplePeer 1 10)
        ⟨[⟨[7]⟩], some ⟨5, (roundCommitments toyPrims examplePKGs).reverse⟩⟩ :=
  ⟨by decide, by decide,
    C6_order_independent toyPrims (roundSettings toyPrims examplePKGs []) 5
      [List.replicate 32 1, List.replicate 32 2] [List.replicate 32 2, List.replicate 32 1]
      (examplePeer 1 10) [⟨[7]⟩]
      (roundCommitments toyPrims examplePKGs) (roundCommitments toyPrims examplePKGs).reverse
      (List.Perm.swap _ _ _) (List.reverse_perm _).symm (by decide)⟩

/-- C7, as stated, fails: on `examplePKG` a reveal for round 5 latches a
signature over the keys `[10]`, `[12]`; the later authorized `commit(7)`
deletes round 5 and the `commit(5)` after it generates the keys `[30]`, `[32]`;
from then on `commit(5)` answers another commitment than the original one and
a successful `reveal(5, _)` returns another master public key. -/
theorem C7_regenerated_counterexample :
    (∃ sig, (revealHandler toyPrims
        (run toyPrims examplePKG [.commit (exampleGen 10) (exampleCommit 5)])
        (exampleReveal 5 [(EncodeToString examplePKG.publicKey, commitTo toyPrims [10] [12])])).2 =
      .reveal ⟨[10], [12], sig⟩) ∧
    (commitHandler toyPrims (exampleGen 40)
        (run toyPrims examplePKG
          [.commit (exampleGen 10) (exampleCommit 5),
           .reveal (exampleReveal 5
              [(EncodeToString examplePKG.publicKey, commitTo toyPrims [10] [12])]),
           .commit (exampleGen 20) (exampleCommit 7),
           .commit (exampleGen 30) (exampleCommit 5)])
        (exampleCommit 5)).2 = .commit ⟨commitTo toyPrims [30] [32]⟩ ∧
    commitTo toyPrims [30] [32] ≠ commitTo toyPrims [10] [12] ∧
    (∃ sig, (revealHandler toyPrims
        (run toyPrims examplePKG
          [.commit (exampleGen 10) (exampleCommit 5),
           .reveal (exampleReveal 5
              [(EncodeToString examplePKG.publicKey, commitTo toyPrims [10] [12])]),
           .commit (exampleGen 20) (exampleCommit 7),
           .commit (exampleGen 30) (exampleCommit 5)])
        (exampleReveal 5 [(EncodeToString examplePKG.publicKey, commitTo toyPrims [30] [32])])).2 =
      .reveal ⟨[30], [32], sig⟩) :=
  ⟨⟨_, rfl⟩, by decide, by decide, ⟨_, rfl⟩⟩

/-- C7, amended: once a reveal for round `r` has answered with a reply, then
after every sequence of coordinator requests that contains no authorized commit
for a round `r2` with `r < r2 - 1` on `uint32` (the commits that delete round
`r`), every authorized reveal for `r` answers with that same reply (master
public key, BLS public key and signature) and every authorized commit for `r`
answers the commitment to the keys of that reply. -/
theorem C7_latched_until_evicted (P : Prims) (srv : Server) (req1 : Request revealArgs)
    (args1 : revealArgs) (reply1 : RevealReply) (calls : List Call)
    (hb1 : req1.body = some args1)
    (h1 : (revealHandler P srv req1).2 = .reveal reply1)
    (hno : ∀ call ∈ calls, evicts srv.coordinatorKey args1.Round call = false) :
    (∀ (req2 : Request revealArgs) (args2 : revealArgs),
      authorized srv.coordinatorKey req2 = .ok () → req2.body = some args2 →
      args2.Round = args1.Round →
      (revealHandler P (run P (revealHandler P srv req1).1 calls) req2).2 = .reveal reply1) ∧
    (∀ (gen : KeyGen) (req2 : Request commitArgs),
      authorized srv.coordinatorKey req2 = .ok () → req2.body = some ⟨args1.Round⟩ →
      (commitHandler P gen (run P (revealHandler P srv req1).1 calls) req2).2 =
        .commit ⟨commitTo P reply1.MasterPublicKey reply1.BLSPublicKey⟩) := by
  obtain ⟨_, st, hst, hs, hm, hbls⟩ := revealHandler_success_latched P srv req1 args1 reply1 hb1 h1
  have hkey1 := (revealHandler_keys P srv req1).1
  have hrun := run_keeps_latched P calls (revealHandler P srv req1).1 args1.Round st _ hst hs
    (by rw [hkey1]; exact hno)
  have hkey : (run P (revealHandler P srv req1).1 calls).coordinatorKey = srv.coordinatorKey :=
    hrun.2.trans hkey1
  constructor
  · intro req2 args2 ha2 hb2 hr
    have hst2 := hrun.1
    rw [← hr] at hst2
    rw [revealHandler_latched P _ req2 args2 st _ (by rw [hkey]; exact ha2) hb2 hst2 hs,
      hm, hbls]
  · intro gen req2 ha2 hb2
    rw [commitHandler_found P gen _ req2 args1.Round st (by rw [hkey]; exact ha2) hb2 hrun.1,
      hm, hbls]

/-- C7, amended, on `examplePKG`: after the reveal of round 5, a commit and a
reveal for round 6 delete nothing of round 5, and both a reveal and a commit
for round 5 answer as before. -/
theorem C7_latched_until_evicted_witness :
    (revealHandler toyPrims (commitHandler toyPrims (exampleGen 10) examplePKG (exampleCommit 5)).1
        (exampleReveal 5 exampleMap)).2 = .reveal exampleReply ∧
    (∀ (req2 : Request revealArgs) (args2 : revealArgs),
      authorized [7] req2 = .ok () → req2.body = some args2 → args2.Round = 5 →
      (revealHandler toyPrims
        (run toyPrims
          (revealHandler toyPrims
            (commitHandler toyPrims (exampleGen 10) examplePKG (exampleCommit 5)).1
            (exampleReveal 5 exampleMap)).1
          [.commit (exampleGen 20) (exampleCommit 6), .reveal (exampleReveal 6 [])])
        req2).2 = .reveal exampleReply) ∧
    (∀ (gen : KeyGen) (req2 : Request commitArgs),
      authorized [7] req2 = .ok () → req2.body = some ⟨5⟩ →
      (commitHandler toyPrims gen
        (run toyPrims
          (revealHandler toyPrims
            (commitHandler toyPrims (exampleGen 10) examplePKG (exampleCommit 5)).1
            (exampleReveal 5 exampleMap)).1
          [.commit (exampleGen 20) (exampleCommit 6), .reveal (exampleReveal 6 [])])
        req2).2 = .commit ⟨commitTo toyPrims [10] [12]⟩) :=
  ⟨by decide,
    C7_latched_until_evicted toyPrims
      (commitHandler toyPrims (exampleGen 10) examplePKG (exampleCommit 5)).1
      (exampleReveal 5 exampleMap) ⟨5, exampleMap⟩ exampleReply
      [.commit (exampleGen 20) (exampleCommit 6), .reveal (exampleReveal 6 [])]
      rfl (by decide) (by decide)⟩

/-- C8: after an authorized commit for round `r` has completed (it did not
panic), no round number `k` left in the registry is below `r - 1`. -/
theorem C8_retention_bound (P : Prims) (gen : KeyGen) (srv : Server)
    (req : Request commitArgs) (r : Nat)
    (ha : authorized srv.coordinatorKey req = .ok ()) (hb : req.body = some ⟨r⟩)
    (hr : r < 2 ^ 32) (hdone : (commitHandler P gen srv req).2 ≠ .panicked) :
    ∀ k st, (k, st) ∈ (commitHandler P gen srv req).1.rounds →
      ¬ ((k : Int) < (r : Int) - 1) := by
  intro k st hmem
  rcases commitHandler_cases P gen srv req with ⟨_, hn⟩ |
    ⟨r2, st2, rounds1, _, hb2, _, _, _, _, heq⟩
  · exfalso
    cases hst : mapGet srv.rounds r with
    | some st0 =>
      exact hn _ (congrArg Prod.snd (commitHandler_found P gen srv req r st0 ha hb hst))
    | none =>
      cases hg : gen.bls with
      | none =>
        exact hdone (congrArg Prod.snd (commitHandler_panicked P gen srv req r ha hb hst hg))
      | some kp =>
        exact hn _ (congrArg Prod.snd
          (commitHandler_fresh P gen srv req r kp.1 kp.2 ha hb hst (by rw [hg])))
  · rw [hb] at hb2
    cases hb2
    rw [heq] at hmem
    have hk := (mem_evictRounds rounds1 r (k, st) hmem).2
    intro hlt
    have h0 : 0 < r := by omega
    rw [roundMinusOne_of_pos r h0 hr] at hk
    apply hk
    show k < r - 1
    omega

/-- C8 on `examplePKG` holding the rounds 4 and 5: after `commit(7)` no round
below 6 is left. -/
theorem C8_retention_bound_witness :
    mapKeys (run toyPrims examplePKG
      [.commit (exampleGen 10) (exampleCommit 4),
       .commit (exampleGen 20) (exampleCommit 5)]).rounds = [4, 5] ∧
    ∀ k st, (k, st) ∈ (commitHandler toyPrims (exampleGen 30)
        (run toyPrims examplePKG
          [.commit (exampleGen 10) (exampleCommit 4),
           .commit (exampleGen 20) (exampleCommit 5)])
        (exampleCommit 7)).1.rounds →
      ¬ ((k : Int) < ((7 : Nat) : Int) - 1) :=
  ⟨by decide,
    C8_retention_bound toyPrims (exampleGen 30)
      (run toyPrims examplePKG
        [.commit (exampleGen 10) (exampleCommit 4),
         .commit (exampleGen 20) (exampleCommit 5)])
      (exampleCommit 7) 7 rfl rfl (by decide) (by decide)⟩

/-- C9: `authorized` succeeds exactly when there is a first peer certificate
and its signing key equals the expected key; a commit or reveal request for
which that fails against the coordinator key is answered `Unauthorized` and
the server, its round registry included, stays as it was. -/
theorem C9_authorization (P : Prims) (gen : KeyGen) (srv : Server) (key : Bytes)
    (creq : Request commitArgs) (rreq : Request revealArgs) :
    (authorized key creq = .ok () ↔
      ∃ cert rest, creq.peerCertificates = cert :: rest ∧ GetSigningKey cert = key) ∧
    (authorized key rreq = .ok () ↔
      ∃ cert rest, rreq.peerCertificates = cert :: rest ∧ GetSigningKey cert = key) ∧
    ((¬ ∃ cert rest, creq.peerCertificates = cert :: rest ∧
        GetSigningKey cert = srv.coordinatorKey) →
      commitHandler P gen srv creq = (srv, .httpError .ErrUnauthorized)) ∧
    ((¬ ∃ cert rest, rreq.peerCertificates = cert :: rest ∧
        GetSigningKey cert = srv.coordinatorKey) →
      revealHandler P srv rreq = (srv, .httpError .ErrUnauthorized)) := by
  have hiff : ∀ {α : Type} (k : Bytes) (req : Request α), authorized k req = .ok () ↔
      ∃ cert rest, req.peerCertificates = cert :: rest ∧ GetSigningKey cert = k := by
    intro α k req
    unfold authorized
    cases hc : req.peerCertificates with
    | nil => simp
    | cons cert rest =>
      by_cases hk : GetSigningKey cert = k
      · simp [hk]
      · simp [hk]
  refine ⟨hiff key creq, hiff key rreq, fun h => ?_, fun h => ?_⟩
  · rcases authorized_cases srv.coordinatorKey creq with ha | ha
    · exact absurd ((hiff _ _).mp ha) h
    · exact commitHandler_unauthorized P gen srv creq _ ha
  · rcases authorized_cases srv.coordinatorKey rreq with ha | ha
    · exact absurd ((hiff _ _).mp ha) h
    · exact revealHandler_unauthorized P srv rreq _ ha

/-- C10: an authorized reveal for round `r` with commitments map `C` fails with
`RoundNotFound` when the registry holds no state for `r`; when it holds a state
without signature, the reveal answers with a reply exactly when `C` at the hex
of the PKG's own key equals `commitTo` of the stored public keys and every
entry of `C` has a key of 64 bytes and a commitment of 32 bytes, and it fails
with `BadCommitment`, the server unchanged, in every other case. -/
theorem C10_reveal_outcomes (P : Prims) (srv : Server) (req : Request revealArgs)
    (r : Nat) (C : List (Bytes × Bytes))
    (ha : authorized srv.coordinatorKey req = .ok ()) (hb : req.body = some ⟨r, C⟩)
    (hnd : (mapKeys C).Nodup) :
    (mapGet srv.rounds r = none →
      revealHandler P srv req = (srv, .httpError .ErrRoundNotFound)) ∧
    (∀ st, mapGet srv.rounds r = some st → st.revealSignature = none →
      ((∃ srv2 reply, revealHandler P srv req = (srv2, .reveal reply)) ↔
        ((mapGet C (EncodeToString srv.publicKey)).getD [] =
            commitTo P st.masterPublicKey st.blsPublicKey ∧
          ∀ kv ∈ C, kv.1.length = 64 ∧ kv.2.length = 32)) ∧
      (¬ ((mapGet C (EncodeToString srv.publicKey)).getD [] =
            commitTo P st.masterPublicKey st.blsPublicKey ∧
          ∀ kv ∈ C, kv.1.length = 64 ∧ kv.2.length = 32) →
        revealHandler P srv req = (srv, .httpError .ErrBadCommitment))) := by
  refine ⟨fun hst => revealHandler_notFound P srv req ⟨r, C⟩ ha hb hst, ?_⟩
  intro st hst hs
  have hlen : (commitTo P st.masterPublicKey st.blsPublicKey).length = 32 :=
    P.sum512_256_size _
  have hun := revealHandler_unlatched P srv req ⟨r, C⟩ st ha hb hst hs
  simp only [hlen] at hun
  have hmsg := revealMessage_ok_iff r C 32 hnd
  by_cases hself : (mapGet C (EncodeToString srv.publicKey)).getD [] =
      commitTo P st.masterPublicKey st.blsPublicKey
  · rw [if_neg (not_not.mpr hself)] at hun
    cases hm : revealMessage r C 32 with
    | error code =>
      rw [hm] at hun
      have hcode := revealMessage_error r C 32 code hm
      have hnot : ¬ ∀ kv ∈ C, kv.1.length = 64 ∧ kv.2.length = 32 := by
        intro hall
        obtain ⟨msg, hmsg2⟩ := hmsg.mpr hall
        rw [hm] at hmsg2
        cases hmsg2
      rw [hun, hcode]
      refine ⟨⟨fun ⟨_, _, h⟩ => (by cases h), fun h => absurd h.2 hnot⟩, fun _ => rfl⟩
    | ok msg =>
      rw [hm] at hun
      have hall : ∀ kv ∈ C, kv.1.length = 64 ∧ kv.2.length = 32 := hmsg.mp ⟨msg, hm⟩
      rw [hun]
      exact ⟨⟨fun _ => ⟨hself, hall⟩, fun _ => ⟨_, _, rfl⟩⟩, fun h => absurd ⟨hself, hall⟩ h⟩
  · rw [if_pos hself] at hun
    rw [hun]
    exact ⟨⟨fun ⟨_, _, h⟩ => (by cases h), fun h => absurd h.1 hself⟩, fun _ => rfl⟩

/-- C10 on `examplePKG` after `commit(5)`, for the reveal with `exampleMap`. -/
theorem C10_reveal_outcomes_witness :
    (mapKeys exampleMap).Nodup ∧
    (mapGet (commitHandler toyPrims (exampleGen 10) examplePKG (exampleCommit 5)).1.rounds 5 = none →
      revealHandler toyPrims
          (commitHandler toyPrims (exampleGen 10) examplePKG (exampleCommit 5)).1
          (exampleReveal 5 exampleMap) =
        ((commitHandler toyPrims (exampleGen 10) examplePKG (exampleCommit 5)).1,
          .httpError .ErrRoundNotFound)) ∧
    (∀ st,
      mapGet (commitHandler toyPrims (exampleGen 10) examplePKG (exampleCommit 5)).1.rounds 5 =
        some st →
      st.revealSignature = none →
      ((∃ srv2 reply, revealHandler toyPrims
          (commitHandler toyPrims (exampleGen 10) examplePKG (exampleCommit 5)).1
          (exampleReveal 5 exampleMap) = (srv2, .reveal reply)) ↔
        ((mapGet exampleMap (EncodeToString (commitHandler toyPrims (exampleGen 10) examplePKG
              (exampleCommit 5)).1.publicKey)).getD [] =
            commitTo toyPrims st.masterPublicKey st.blsPublicKey ∧
          ∀ kv ∈ exampleMap, kv.1.length = 64 ∧ kv.2.length = 32)) ∧
      (¬ ((mapGet exampleMap (EncodeToString (commitHandler toyPrims (exampleGen 10) examplePKG
              (exampleCommit 5)).1.publicKey)).getD [] =
            commitTo toyPrims st.masterPublicKey st.blsPublicKey ∧
          ∀ kv ∈ exampleMap, kv.1.length = 64 ∧ kv.2.length = 32) →
        revealHandler toyPrims
            (commitHandler toyPrims (exampleGen 10) examplePKG (exampleCommit 5)).1
            (exampleReveal 5 exampleMap) =
          ((commitHandler toyPrims (exampleGen 10) examplePKG (exampleCommit 5)).1,
            .httpError .ErrBadCommitment))) :=
  ⟨by decide,
    C10_reveal_outcomes toyPrims
      (commitHandler toyPrims (exampleGen 10) examplePKG (exampleCommit 5)).1
      (exampleReveal 5 exampleMap) 5 exampleMap rfl rfl (by decide)⟩

/-! ## Reordered keys, failed reveals, commit followed by reveal -/

/-- C11, as stated, fails: for the settings of round 5 collected from the two
PKGs of `examplePKGs` (each reply is what `revealHandler` answers and carries
the signature of `exampleMessage`), `Verify` returns `true` for the two keys
in one order and also `true` for the same keys in the other order. -/
theorem C11_reordered_counterexample :
    revealMessage 5 (roundCommitments toyPrims examplePKGs) 32 = .ok exampleMessage ∧
    (∀ p ∈ examplePKGs,
      (revealHandler toyPrims p.1 (exampleReveal 5 (roundCommitments toyPrims examplePKGs))).2 =
        .reveal ⟨p.2.masterPublicKey, p.2.blsPublicKey,
          toyPrims.sign p.1.privateKey exampleMessage⟩) ∧
    Verify toyPrims (roundSettings toyPrims examplePKGs exampleMessage) 5
      [List.replicate 32 1, List.replicate 32 2] = true ∧
    Verify toyPrims (roundSettings toyPrims examplePKGs exampleMessage) 5
      [List.replicate 32 2, List.replicate 32 1] = true ∧
    [List.replicate 32 2, List.replicate 32 1] ≠ [List.replicate 32 1, List.replicate 32 2] := by
  refine ⟨rfl, ?_, ?_, ?_, by decide⟩
  · set_option maxRecDepth 100000 in decide
  · set_option maxRecDepth 100000 in decide
  · set_option maxRecDepth 100000 in decide

/-- C11, amended: when `Verify` returns `true` for a key list, it returns
`true` for the same keys in any other order too, and rebuilds the same
message; this holds for every settings map, that of a correctly executed round
included. -/
theorem C11_reordered_still_verifies (P : Prims) (s : RoundSettings) (round : Nat)
    (keys keys2 : List Bytes) (hk : keys.Perm keys2)
    (hv : Verify P s round keys = true) :
    Verify P s round keys2 = true ∧
      verifyMessage P s round keys2 = verifyMessage P s round keys := by
  have hm := verifyMessage_perm P s round keys keys2 hk
  refine ⟨?_, hm.symm⟩
  unfold Verify at hv ⊢
  rw [← hm]
  cases hmsg : verifyMessage P s round keys with
  | none => rw [hmsg] at hv; cases hv
  | some msg =>
    rw [hmsg] at hv
    have hall := all_eq_of_perm (fun key => P.verify key msg
      (((mapGet s (EncodeToString key)).map (fun r => r.Signature)).getD [])) keys keys2 hk
    show keys2.all _ = true
    rw [← hall]
    exact hv

/-- C11, amended, on the settings of `examplePKGs`: the two keys in the other
order. -/
theorem C11_reordered_still_verifies_witness :
    Verify toyPrims (roundSettings toyPrims examplePKGs exampleMessage) 5
      [List.replicate 32 1, List.replicate 32 2] = true ∧
    Verify toyPrims (roundSettings toyPrims examplePKGs exampleMessage) 5
      [List.replicate 32 2, List.replicate 32 1] = true ∧
    verifyMessage toyPrims (roundSettings toyPrims examplePKGs exampleMessage) 5
        [List.replicate 32 2, List.replicate 32 1] =
      verifyMessage toyPrims (roundSettings toyPrims examplePKGs exampleMessage) 5
        [List.replicate 32 1, List.replicate 32 2] :=
  ⟨by set_option maxRecDepth 100000 in decide,
    C11_reordered_still_verifies toyPrims (roundSettings toyPrims examplePKGs exampleMessage) 5
      [List.replicate 32 1, List.replicate 32 2] [List.replicate 32 2, List.replicate 32 1]
      (List.Perm.swap _ _ _) (by set_option maxRecDepth 100000 in decide)⟩

/-- A reveal that answers `RoundNotFound` or `BadCommitment` leaves the server
as it was; when it had a state for the round, that state has no signature. -/
theorem revealHandler_error_frame (P : Prims) (srv : Server) (req : Request revealArgs)
    (args : revealArgs) (code : ErrorCode) (hb : req.body = some args)
    (hcode : code = .ErrRoundNotFound ∨ code = .ErrBadCommitment)
    (h : (revealHandler P srv req).2 = .httpError code) :
    (revealHandler P srv req).1 = srv ∧
      ∀ st, mapGet srv.rounds args.Round = some st → st.revealSignature = none := by
  rcases authorized_cases srv.coordinatorKey req with ha | ha
  swap
  · rw [revealHandler_unauthorized P srv req _ ha] at h
    cases h
    rcases hcode with hc | hc <;> cases hc
  constructor
  · rcases revealHandler_cases P srv req with h1 | ⟨_, _, _, _, _, _, _, heq⟩
    · exact h1
    · rw [heq] at h
      cases h
  · intro st hst
    cases hs : st.revealSignature with
    | none => rfl
    | some sig =>
      rw [revealHandler_latched P srv req args st sig ha hb hst hs] at h
      cases h

/-- An authorized reveal for a round whose state has no signature, with a map
of distinct keys that holds the commitment to the stored keys under the PKG's
own hex key and only entries of 64 and 32 bytes, signs the message built from
the map and latches the signature. -/
theorem revealHandler_signs (P : Prims) (srv : Server) (req : Request revealArgs)
    (r : Nat) (C : List (Bytes × Bytes)) (st : roundState)
    (ha : authorized srv.coordinatorKey req = .ok ()) (hb : req.body = some ⟨r, C⟩)
    (hnd : (mapKeys C).Nodup)
    (hst : mapGet srv.rounds r = some st) (hs : st.revealSignature = none)
    (hself : (mapGet C (EncodeToString srv.publicKey)).getD [] =
      commitTo P st.masterPublicKey st.blsPublicKey)
    (hwf : ∀ kv ∈ C, kv.1.length = 64 ∧ kv.2.length = 32) :
    ∃ msg, revealMessage r C 32 = .ok msg ∧
      revealHandler P srv req =
        ({ srv with rounds := latchSignature srv.rounds r (P.sign srv.privateKey msg) },
          .reveal ⟨st.masterPublicKey, st.blsPublicKey, P.sign srv.privateKey msg⟩) := by
  have hlen : (commitTo P st.masterPublicKey st.blsPublicKey).length = 32 :=
    P.sum512_256_size _
  obtain ⟨msg, hmsg⟩ := (revealMessage_ok_iff r C 32 hnd).mpr hwf
  refine ⟨msg, hmsg, ?_⟩
  rw [revealHandler_unlatched P srv req ⟨r, C⟩ st ha hb hst hs]
  simp only [hself, ne_eq, not_true_eq_false, if_false, hlen, hmsg]

/-- After an authorized `commit(0)`, whatever the registry held and whatever the
random source yields, the registry holds no state for round 0. -/
theorem commit_zero_evicts (P : Prims) (srv : Server) (gen : KeyGen) :
    mapGet (commitHandler P gen srv ⟨[⟨srv.coordinatorKey⟩], some ⟨0⟩⟩).1.rounds 0 = none := by
  rcases commitHandler_cases P gen srv ⟨[⟨srv.coordinatorKey⟩], some ⟨0⟩⟩ with ⟨h, hn⟩ |
    ⟨r2, st, rounds1, _, hb2, _, _, _, _, heq⟩
  · rw [h]
    cases hst : mapGet srv.rounds 0 with
    | none => rfl
    | some st =>
      have ha : authorized srv.coordinatorKey
          (⟨[⟨srv.coordinatorKey⟩], some ⟨0⟩⟩ : Request commitArgs) = .ok () := by
        simp [authorized, GetSigningKey]
      exact absurd (congrArg Prod.snd (commitHandler_found P gen srv _ 0 st ha rfl hst)) (hn _)
  · cases hb2
    rw [heq]
    show mapGet (evictRounds rounds1 0) 0 = none
    rw [mapGet_evictRounds]
    simp [roundMinusOne]

/-- Commit followed by reveal on the rounds `1 ≤ r < 2^32`: once a commit for
`r` has answered the commitment `c`, the registry holds a state for `r`, and an
authorized reveal for `r` whose map has distinct keys, `c` under the PKG's own
hex key and only entries of 64 and 32 bytes answers with public keys whose
commitment is `c`. -/
theorem commit_then_reveal_of_pos (P : Prims) (gen : KeyGen) (srv : Server)
    (creq : Request commitArgs) (rreq : Request revealArgs) (r : Nat) (c : commitReply)
    (C : List (Bytes × Bytes))
    (hb : creq.body = some ⟨r⟩) (h0 : 0 < r) (hr : r < 2 ^ 32)
    (h1 : (commitHandler P gen srv creq).2 = .commit c)
    (ha : authorized srv.coordinatorKey rreq = .ok ()) (hrb : rreq.body = some ⟨r, C⟩)
    (hnd : (mapKeys C).Nodup)
    (hself : (mapGet C (EncodeToString srv.publicKey)).getD [] = c.Commitment)
    (hwf : ∀ kv ∈ C, kv.1.length = 64 ∧ kv.2.length = 32) :
    (∃ st, mapGet (commitHandler P gen srv creq).1.rounds r = some st) ∧
    ∃ reply, (revealHandler P (commitHandler P gen srv creq).1 rreq).2 = .reveal reply ∧
      commitTo P reply.MasterPublicKey reply.BLSPublicKey = c.Commitment := by
  have hkeep : ¬ r < roundMinusOne r := by
    rw [roundMinusOne_of_pos r h0 hr]; omega
  obtain ⟨_, st, hst, hc, _⟩ := commitHandler_success_stored P gen srv creq r c hb hkeep h1
  have hkeys := commitHandler_keys P gen srv creq
  have ha2 : authorized (commitHandler P gen srv creq).1.coordinatorKey rreq = .ok () := by
    rw [hkeys.1]; exact ha
  refine ⟨⟨st, hst⟩, ?_⟩
  cases hs : st.revealSignature with
  | some sig =>
    refine ⟨⟨st.masterPublicKey, st.blsPublicKey, sig⟩, ?_, ?_⟩
    · rw [revealHandler_latched P _ rreq ⟨r, C⟩ st sig ha2 hrb hst hs]
    · rw [hc]
  | none =>
    have hself2 : (mapGet C (EncodeToString (commitHandler P gen srv creq).1.publicKey)).getD [] =
        commitTo P st.masterPublicKey st.blsPublicKey := by
      rw [hkeys.2.1, hself, hc]
    obtain ⟨msg, _, heq⟩ := revealHandler_signs P _ rreq r C st ha2 hrb hnd hst hs hself2 hwf
    refine ⟨_, congrArg Prod.snd heq, ?_⟩
    rw [hc]

/-- C12: a reveal answered with `RoundNotFound` or `BadCommitment` leaves the
server, its round registry included, exactly as it was; and when the registry
holds a state for the round, a later authorized reveal for that round whose map
has distinct keys, the commitment to the stored keys under the PKG's own hex
key and only entries of 64 and 32 bytes answers with the stored public keys and
the signature of the message built from that map, and latches it. -/
theorem C12_failed_reveal_frame (P : Prims) (srv : Server) (req : Request revealArgs)
    (args : revealArgs) (code : ErrorCode) (hb : req.body = some args)
    (hcode : code = .ErrRoundNotFound ∨ code = .ErrBadCommitment)
    (h : (revealHandler P srv req).2 = .httpError code) :
    (revealHandler P srv req).1 = srv ∧
    ∀ (st : roundState) (req2 : Request revealArgs) (C : List (Bytes × Bytes)),
      mapGet srv.rounds args.Round = some st →
      authorized srv.coordinatorKey req2 = .ok () → req2.body = some ⟨args.Round, C⟩ →
      (mapKeys C).Nodup →
      (mapGet C (EncodeToString srv.publicKey)).getD [] =
        commitTo P st.masterPublicKey st.blsPublicKey →
      (∀ kv ∈ C, kv.1.length = 64 ∧ kv.2.length = 32) →
      ∃ msg, revealMessage args.Round C 32 = .ok msg ∧
        revealHandler P (revealHandler P srv req).1 req2 =
          ({ srv with rounds := latchSignature srv.rounds args.Round (P.sign srv.privateKey msg) },
            .reveal ⟨st.masterPublicKey, st.blsPublicKey, P.sign srv.privateKey msg⟩) := by
  obtain ⟨hsame, hun⟩ := revealHandler_error_frame P srv req args code hb hcode h
  refine ⟨hsame, ?_⟩
  intro st req2 C hst ha2 hb2 hnd hself hwf
  rw [hsame]
  exact revealHandler_signs P srv req2 args.Round C st ha2 hb2 hnd hst (hun st hst) hself hwf

/-- C12 on `examplePeer 1 10`: a reveal of round 5 with the empty map is
answered `BadCommitment` and changes nothing; the reveal with `exampleMap`
after it signs the message built from `exampleMap`. -/
theorem C12_failed_reveal_frame_witness :
    (revealHandler toyPrims (examplePeer 1 10) (exampleReveal 5 [])).2 =
      .httpError .ErrBadCommitment ∧
    (revealHandler toyPrims (examplePeer 1 10) (exampleReveal 5 [])).1 = examplePeer 1 10 ∧
    ∃ msg, revealMessage 5 exampleMap 32 = .ok msg ∧
      revealHandler toyPrims (revealHandler toyPrims (examplePeer 1 10) (exampleReveal 5 [])).1
          (exampleReveal 5 exampleMap) =
        ({ examplePeer 1 10 with
            rounds := latchSignature (examplePeer 1 10).rounds 5
              (toyPrims.sign (examplePeer 1 10).privateKey msg) },
          .reveal ⟨[10], [12], toyPrims.sign (examplePeer 1 10).privateKey msg⟩) :=
  ⟨by decide,
    (C12_failed_reveal_frame toyPrims (examplePeer 1 10) (exampleReveal 5 []) ⟨5, []⟩
      .ErrBadCommitment rfl (Or.inr rfl) (by decide)).1,
    (C12_failed_reveal_frame toyPrims (examplePeer 1 10) (exampleReveal 5 []) ⟨5, []⟩
      .ErrBadCommitment rfl (Or.inr rfl) (by decide)).2 (exampleState 10)
      (exampleReveal 5 exampleMap) exampleMap rfl rfl rfl (by decide) (by decide) (by decide)⟩

/-- C13 at round 0, where the code departs from the claim: an authorized
`commit(0)` answers a commitment, yet afterwards the registry holds no state
for round 0 (the deletion loop compares with `0-1 = 2^32-1`), and the
authorized reveal for round 0 that follows is answered `RoundNotFound`,
whatever commitments map it carries. -/
theorem C13_commit_zero_then_reveal (P : Prims) (srv : Server)
    (ibePub ibePriv blsPub blsPriv : Bytes) (C : List (Bytes × Bytes)) :
    (∃ c, (commitHandler P ⟨ibePub, ibePriv, some (blsPub, blsPriv)⟩ srv
        ⟨[⟨srv.coordinatorKey⟩], some ⟨0⟩⟩).2 = .commit c) ∧
    mapGet (commitHandler P ⟨ibePub, ibePriv, some (blsPub, blsPriv)⟩ srv
        ⟨[⟨srv.coordinatorKey⟩], some ⟨0⟩⟩).1.rounds 0 = none ∧
    (revealHandler P
        (commitHandler P ⟨ibePub, ibePriv, some (blsPub, blsPriv)⟩ srv
          ⟨[⟨srv.coordinatorKey⟩], some ⟨0⟩⟩).1
        ⟨[⟨srv.coordinatorKey⟩], some ⟨0, C⟩⟩).2 = .httpError .ErrRoundNotFound := by
  have hac : authorized srv.coordinatorKey
      (⟨[⟨srv.coordinatorKey⟩], some ⟨0⟩⟩ : Request commitArgs) = .ok () := by
    simp [authorized, GetSigningKey]
  have hev := commit_zero_evicts P srv ⟨ibePub, ibePriv, some (blsPub, blsPriv)⟩
  refine ⟨?_, hev, ?_⟩
  · cases hst : mapGet srv.rounds 0 with
    | some st =>
      exact ⟨_, congrArg Prod.snd (commitHandler_found P _ srv _ 0 st hac rfl hst)⟩
    | none =>
      exact ⟨_, congrArg Prod.snd
        (commitHandler_fresh P ⟨ibePub, ibePriv, some (blsPub, blsPriv)⟩ srv _ 0
          blsPub blsPriv hac rfl hst rfl)⟩
  · have har : authorized
        (commitHandler P ⟨ibePub, ibePriv, some (blsPub, blsPriv)⟩ srv
          ⟨[⟨srv.coordinatorKey⟩], some ⟨0⟩⟩).1.coordinatorKey
        (⟨[⟨srv.coordinatorKey⟩], some ⟨0, C⟩⟩ : Request revealArgs) = .ok () := by
      rw [(commitHandler_keys P _ srv _).1]
      simp [authorized, GetSigningKey]
    rw [revealHandler_notFound P _ _ ⟨0, C⟩ har rfl hev]

/-- C13 at round 0 on `examplePKG`, evaluated: `commit(0)` answers the
commitment to the keys `[10]`, `[12]`, and the reveal of round 0 with
`exampleMap`, which holds that commitment under the PKG's own hex key, is
answered `RoundNotFound`. -/
theorem commit_zero_then_reveal_not_found :
    (commitHandler toyPrims (exampleGen 10) examplePKG (exampleCommit 0)).2 =
      .commit ⟨commitTo toyPrims [10] [12]⟩ ∧
    (revealHandler toyPrims (commitHandler toyPrims (exampleGen 10) examplePKG (exampleCommit 0)).1
      (exampleReveal 0 exampleMap)).2 = .httpError .ErrRoundNotFound := by
  decide

end Alpenhorn
